import Mathlib

/-!
Verification of `gh-hist-to-md.py`: a shallow embedding in Lean 4 of the
Python pipeline that turns exported GitHub activity JSON files into a
Markdown digest, together with theorems settling the specification claims.

Modelling conventions:
* Python `str` is modelled as `List Char` (`Str`); only ASCII case folding
  and the ASCII whitespace set of `str.strip` are modelled, which covers
  every string the program's claims exercise.
* Python code that can raise is modelled in `Py α := Except String α`;
  the error string names the Python exception class.  An uncaught
  exception in the source corresponds to an `Except.error` value here.
* JSON values are the inductive `Json`.  Objects are association lists in
  insertion order (Python 3.7+ `dict` preserves insertion order); keys are
  assumed distinct as produced by `json.load`.
* `datetime` values are `PyDT`: calendar components plus an optional UTC
  offset in minutes (`tz = none` models a naive datetime).  Comparison of
  a naive and an aware datetime raises `TypeError`, as in Python.
* Dictionary keys (`PyKey`) compare with Python `==` (`pyKeyEq`): a
  `dict` unifies `True` with `1` and `False` with `0`, keeping the
  first-inserted key object of each class; `defaultdict` grouping and
  `grouped[repo]` lookup use this equality, never structural equality.
-/

/-- Python `str`, as a list of characters. -/
abbrev Str := List Char

/-- Characters of a Lean string literal, used to write Python string
literals inside the model. -/
def chars (s : String) : Str := s.data

/-- Python computations that may raise: `Except.error e` models an
uncaught exception whose class is named by `e`. -/
abbrev Py (α : Type) := Except String α

/-- A JSON value as produced by `json.load`.  Numbers are modelled as
integers (no claim depends on fractional numbers). -/
inductive Json where
  | null
  | bool (b : Bool)
  | num (n : Int)
  | str (s : Str)
  | arr (elems : List Json)
  | obj (fields : List (Str × Json))

/-- A hashable Python value, usable as a `dict` key.  Containers
(`list`/`dict`) are unhashable and raise `TypeError` when used as keys.
The derived structural equality is NOT Python's key equality — Python
dicts unify `True` with `1` and `False` with `0`; dictionary operations
use `pyKeyEq` below, never the derived equality. -/
inductive PyKey where
  | null
  | bool (b : Bool)
  | num (n : Int)
  | str (s : Str)
  deriving DecidableEq, Repr

/-- Python `==` on hashable keys, as a `dict` compares them
(`hash(True) == hash(1)` and `True == 1`, likewise `False == 0`;
values of unrelated types are unequal). -/
def pyKeyEq : PyKey → PyKey → Bool
  | .null, .null => true
  | .bool x, .bool y => x == y
  | .bool x, .num n => decide ((if x then (1 : Int) else 0) = n)
  | .num n, .bool y => decide (n = (if y then (1 : Int) else 0))
  | .num n, .num m => decide (n = m)
  | .str s, .str t => decide (s = t)
  | _, _ => false

/-- Using a JSON value as a dictionary key: containers raise
`TypeError` (unhashable type), scalars are usable. -/
def toKey : Json → Py PyKey
  | .null => .ok .null
  | .bool b => .ok (.bool b)
  | .num n => .ok (.num n)
  | .str s => .ok (.str s)
  | .arr _ => .error "TypeError"
  | .obj _ => .error "TypeError"

/-- Python truthiness of a JSON value: `None`, `False`, `0`, `""`, `[]`
and `{}` are falsy, everything else truthy. -/
def pyTruthy : Json → Bool
  | .null => false
  | .bool b => b
  | .num n => n != 0
  | .str s => !s.isEmpty
  | .arr l => !l.isEmpty
  | .obj l => !l.isEmpty

/-- Association-list lookup for JSON object fields. -/
def jlookup (fields : List (Str × Json)) (k : Str) : Option Json :=
  match fields with
  | [] => none
  | (k', v) :: t => if k' = k then some v else jlookup t k

/-- Python `item.get(k, default)`.  Defined only on dictionaries: calling
`.get` on any other value raises `AttributeError`, as in Python. -/
def jget (j : Json) (k : Str) (dflt : Json) : Py Json :=
  match j with
  | .obj fields =>
    match jlookup fields k with
    | some v => .ok v
    | none => .ok dflt
  | _ => .error "AttributeError"

/-- ASCII lower-casing of one character (model of `str.lower` per char). -/
def lowerChar (c : Char) : Char :=
  if 'A' ≤ c ∧ c ≤ 'Z' then Char.ofNat (c.toNat + 32) else c

/-- ASCII model of Python `str.lower`. -/
def pyLowerStr (s : Str) : Str := s.map lowerChar

/-- Python `x.lower()` on a JSON value: only strings have `.lower`,
anything else raises `AttributeError`. -/
def pyLowerJ (j : Json) : Py Str :=
  match j with
  | .str s => .ok (pyLowerStr s)
  | _ => .error "AttributeError"

/-- The ASCII whitespace characters stripped by Python `str.strip()`. -/
def pyWs (c : Char) : Bool :=
  c = ' ' ∨ c = '\t' ∨ c = '\n' ∨ c = '\r' ∨ c = '\x0b' ∨ c = '\x0c'

/-- Model of Python `str.strip()`: remove leading and trailing
whitespace. -/
def pyStrip (s : Str) : Str :=
  ((s.dropWhile pyWs).reverse.dropWhile pyWs).reverse

/-- Python `for item in data`: lists iterate their elements, dicts their
keys, strings their characters; other values raise `TypeError`. -/
def pyIter (j : Json) : Py (List Json) :=
  match j with
  | .arr l => .ok l
  | .obj fields => .ok (fields.map (fun kv => .str kv.1))
  | .str s => .ok (s.map (fun c => .str [c]))
  | _ => .error "TypeError"

/-- Decimal rendering of a natural number. -/
def natStr (n : Nat) : Str := (Nat.repr n).data

/-- Zero-padded rendering to (at least) two digits. -/
def pad2 (n : Nat) : Str := if n < 10 then '0' :: natStr n else natStr n

/-- Zero-padded rendering to (at least) four digits (`%Y`). -/
def pad4 (n : Nat) : Str :=
  (List.replicate (4 - (natStr n).length) '0') ++ natStr n

/-! ### Datetimes

`PyDT` models `datetime.datetime` down to seconds (GitHub export
timestamps carry no sub-second precision; a fractional-seconds string is
treated as unparseable by the `fromisoformat` model below).  `tz` is the
UTC offset in minutes, `none` for a naive datetime. -/

structure PyDT where
  year : Nat
  month : Nat
  day : Nat
  hour : Nat
  minute : Nat
  second : Nat
  tz : Option Int
  deriving DecidableEq, Repr

/-- `datetime.min`: 0001-01-01 00:00:00, naive. -/
def dtMin : PyDT := ⟨1, 1, 1, 0, 0, 0, none⟩

/-- Is the (proleptic Gregorian) year a leap year? -/
def isLeap (y : Nat) : Bool := (y % 4 = 0 ∧ y % 100 ≠ 0) ∨ y % 400 = 0

/-- Length of a month. -/
def daysInMonth (y m : Nat) : Nat :=
  if m = 2 then (if isLeap y then 29 else 28)
  else if m = 4 ∨ m = 6 ∨ m = 9 ∨ m = 11 then 30
  else 31

/-- Days in the months strictly before month `m` of year `y`. -/
def daysBeforeMonth (y m : Nat) : Nat :=
  (List.range (m - 1)).foldl (fun acc i => acc + daysInMonth y (i + 1)) 0

/-- Days in all years strictly before year `y` (CPython `_days_before_year`). -/
def daysBeforeYear (y : Nat) : Nat :=
  365 * (y - 1) + (y - 1) / 4 - (y - 1) / 100 + (y - 1) / 400

/-- Proleptic Gregorian ordinal of a date (CPython `_ymd2ord`):
0001-01-01 has ordinal 1. -/
def ymdOrd (y m d : Nat) : Nat := daysBeforeYear y + daysBeforeMonth y m + d

/-- A datetime's wall-clock position in seconds, ignoring the offset. -/
def naiveVal (t : PyDT) : Int :=
  (ymdOrd t.year t.month t.day : Int) * 86400
    + (t.hour * 3600 + t.minute * 60 + t.second : Nat)

/-- A datetime's position in seconds with its UTC offset applied (used
only when comparing two aware datetimes). -/
def utcVal (t : PyDT) : Int := naiveVal t - 60 * t.tz.getD 0

/-- Three-way integer comparison. -/
def cmpInt (a b : Int) : Ordering :=
  if a < b then .lt else if b < a then .gt else .eq

/-- Comparison of two datetimes.  Comparing a naive with an aware
datetime raises `TypeError`, as in Python. -/
def pyCompareDT (a b : PyDT) : Py Ordering :=
  match a.tz, b.tz with
  | none, none => .ok (cmpInt (naiveVal a) (naiveVal b))
  | some _, some _ => .ok (cmpInt (utcVal a) (utcVal b))
  | _, _ => .error "TypeError"

/-- Validity of calendar components, as enforced by the `datetime`
constructor (year 1–9999, month/day/time fields in range, offset within
a day). -/
def validDT (t : PyDT) : Bool :=
  decide (1 ≤ t.year) && decide (t.year ≤ 9999) &&
  decide (1 ≤ t.month) && decide (t.month ≤ 12) &&
  decide (1 ≤ t.day) && decide (t.day ≤ daysInMonth t.year t.month) &&
  decide (t.hour < 24) && decide (t.minute < 60) && decide (t.second < 60) &&
  (match t.tz with
   | none => true
   | some o => decide (-1440 < o) && decide (o < 1440))

/-! ### `fromisoformat` model

A model of `datetime.fromisoformat` restricted to the shapes the program
meets: `YYYY-MM-DD`, optionally followed by one separator character and
`HH:MM` or `HH:MM:SS`, optionally followed by an offset `±HH:MM`.
Fractional seconds and other ISO variants are treated as unparseable
(`none` models the `ValueError` that `parse_date` catches). -/

/-- Parse exactly `n` leading decimal digits. -/
def takeDigits : Nat → Str → Option (Nat × Str)
  | 0, rest => some (0, rest)
  | _ + 1, [] => none
  | n + 1, c :: rest =>
    if c.isDigit then
      match takeDigits n rest with
      | some (v, r) => some ((c.toNat - '0'.toNat) * 10 ^ n + v, r)
      | none => none
    else none

/-- Parse `HH:MM` or `HH:MM:SS` starting at the head of the string. -/
def parseTime (s : Str) : Option (Nat × Nat × Nat × Str) :=
  match takeDigits 2 s with
  | none => none
  | some (h, r1) =>
    match r1 with
    | ':' :: r2 =>
      match takeDigits 2 r2 with
      | none => none
      | some (mi, r3) =>
        match r3 with
        | ':' :: r4 =>
          match takeDigits 2 r4 with
          | none => none
          | some (se, r5) => some (h, mi, se, r5)
        | _ => some (h, mi, 0, r3)
    | _ => none

/-- Parse a trailing UTC offset `+HH:MM` / `-HH:MM`, or nothing. -/
def parseOffset (s : Str) : Option (Option Int) :=
  match s with
  | [] => some none
  | sign :: r1 =>
    if sign = '+' ∨ sign = '-' then
      match parseTime r1 with
      | some (oh, om, os, []) =>
        if os = 0 ∧ oh < 24 ∧ om < 60 then
          let mins : Int := oh * 60 + om
          some (some (if sign = '-' then -mins else mins))
        else none
      | _ => none
    else none

/-- The `fromisoformat` model itself; `none` models `ValueError`. -/
def fromiso (s : Str) : Option PyDT :=
  match takeDigits 4 s with
  | none => none
  | some (y, r1) =>
    match r1 with
    | '-' :: r2 =>
      match takeDigits 2 r2 with
      | none => none
      | some (m, r3) =>
        match r3 with
        | '-' :: r4 =>
          match takeDigits 2 r4 with
          | none => none
          | some (d, r5) =>
            let finish : Nat → Nat → Nat → Option Int → Option PyDT :=
              fun h mi se tz =>
                let t : PyDT := ⟨y, m, d, h, mi, se, tz⟩
                if validDT t then some t else none
            match r5 with
            | [] => finish 0 0 0 none
            | _ :: r6 =>
              match parseTime r6 with
              | none => none
              | some (h, mi, se, r7) =>
                match parseOffset r7 with
                | none => none
                | some tz => finish h mi se tz
        | _ => none
    | _ => none

/-- Python `s.replace('Z', '+00:00')`. -/
def replaceZ (s : Str) : Str :=
  s.flatMap (fun c => if c = 'Z' then chars "+00:00" else [c])

/-- `parse_date` from the source: falsy input gives `None`; a truthy
non-string has no `.replace` and raises `AttributeError`; otherwise every
`'Z'` is replaced by `'+00:00'` and the result is fed to
`fromisoformat`, whose `ValueError` is caught and turned into `None`.
(The source's `'+' in iso_string or '-' in iso_string[10:]` conditional
selects between two identical branches and is semantically inert.) -/
def parse_date (j : Json) : Py (Option PyDT) :=
  if pyTruthy j = false then .ok none
  else
    match j with
    | .str s => .ok (fromiso (replaceZ s))
    | _ => .error "AttributeError"

/-- Abbreviated month names (`%b`). -/
def monthAbbrev (m : Nat) : Str :=
  (List.getD [chars "Jan", chars "Feb", chars "Mar", chars "Apr",
              chars "May", chars "Jun", chars "Jul", chars "Aug",
              chars "Sep", chars "Oct", chars "Nov", chars "Dec"]
    (m - 1) [])

/-- `format_date` from the source: `''` for `None`, else
`dt.strftime("%b %d")`. -/
def format_date (o : Option PyDT) : Str :=
  match o with
  | none => []
  | some t => monthAbbrev t.month ++ [' '] ++ pad2 t.day

/-- `dt.strftime("%Y-%m-%d")`. -/
def fmtYMD (t : PyDT) : Str :=
  pad4 t.year ++ ['-'] ++ pad2 t.month ++ ['-'] ++ pad2 t.day

/-! ### Field normalisation helpers from the source -/

/-- The pure string core of `get_first_line`: first line (split on
`'\n'`), stripped; truncated to 77 characters plus `"..."` when longer
than 80. -/
def firstLineStr (s : Str) : Str :=
  let fl := pyStrip ((s.splitOn '\n').headD [])
  if fl.length > 80 then fl.take 77 ++ chars "..." else fl

/-- `get_first_line` from the source.  A falsy argument returns `''`; a
truthy non-string has no `.split` and raises `AttributeError`. -/
def get_first_line (j : Json) : Py Str :=
  if pyTruthy j = false then .ok []
  else
    match j with
    | .str s => .ok (firstLineStr s)
    | _ => .error "AttributeError"

/-- `format_body` from the source: falsy or whitespace-only body gives no
lines; otherwise the body is stripped as a whole and each line of the
result is prefixed with `"  > "`.  A truthy non-string body has no
`.strip` and raises `AttributeError`. -/
def format_body (body : Json) : Py (List Str) :=
  if pyTruthy body = false then .ok []
  else
    match body with
    | .str s =>
      if (pyStrip s).isEmpty then .ok []
      else .ok (((pyStrip s).splitOn '\n').map (fun line => chars "  > " ++ line))
    | _ => .error "AttributeError"

/-! ### Normalised records (§3 of the spec) -/

/-- A normalised commit record. -/
structure CommitRec where
  date : Option PyDT
  message : Str
  deriving Repr

/-- A normalised issue record (used for both `issues_created` and
`issues_commented`). -/
structure IssueRec where
  title : Json
  state : Str
  date : Option PyDT
  url : Json
  body : Json

/-- A normalised pull-request record. -/
structure PrRec where
  title : Json
  state : Str
  date : Option PyDT
  url : Json
  merged : Bool
  body : Json

/-- The sort key used by every classifier: `x['date'] or datetime.min`
(datetimes are always truthy in Python 3). -/
def dateKey (o : Option PyDT) : PyDT := o.getD dtMin

/-! ### Python `list.sort` model

A stable insertion sort in the `Py` monad.  Its success results coincide
with CPython's stable sort (a stable sort's output is determined by the
key order and the original positions), and it raises exactly when the
sort has to compare two incomparable keys. -/

/-- Insert `x` into `l`, placing it before the first element `y` for
which `wb (cmp x y)` holds (so with `wb = (· = .gt)` the result is
descending and later-inserted equal elements stay behind earlier ones,
matching `list.sort(..., reverse=True)` stability). -/
def pyInsert (cmp : α → α → Py Ordering) (wb : Ordering → Bool) (x : α) :
    List α → Py (List α)
  | [] => .ok [x]
  | y :: ys =>
    match cmp x y with
    | .error e => .error e
    | .ok o =>
      if wb o then .ok (x :: y :: ys)
      else
        match pyInsert cmp wb x ys with
        | .error e => .error e
        | .ok r => .ok (y :: r)

/-- Left fold of `pyInsert` over the list (stable sort). -/
def pySortAux (cmp : α → α → Py Ordering) (wb : Ordering → Bool) :
    List α → List α → Py (List α)
  | acc, [] => .ok acc
  | acc, x :: xs =>
    match pyInsert cmp wb x acc with
    | .error e => .error e
    | .ok acc' => pySortAux cmp wb acc' xs

/-- The sort model: stable, fallible comparisons. -/
def pySort (cmp : α → α → Py Ordering) (wb : Ordering → Bool)
    (l : List α) : Py (List α) :=
  pySortAux cmp wb [] l

/-! ### The classifiers -/

/-- Append a record under its key, preserving first-touch key order
(`defaultdict` behaviour).  Key lookup uses Python key equality
`pyKeyEq`, so `True` files under an existing key `1` (and vice versa),
and the dict keeps the first-inserted key object of each class. -/
def addAssoc (k : PyKey) (r : ρ) : List (PyKey × List ρ) → List (PyKey × List ρ)
  | [] => [(k, [r])]
  | (k', rs) :: t =>
    if pyKeyEq k' k then (k', rs ++ [r]) :: t else (k', rs) :: addAssoc k r t

/-- Records grouped by repository key, in key-insertion order. -/
abbrev Grouped (ρ : Type) := List (PyKey × List ρ)

/-- One step of the grouping loop: extract one raw item and file the
record under its repository key (an unhashable key raises `TypeError`). -/
def groupStep (extract : Json → Py (Json × ρ)) (g : Grouped ρ) (item : Json) :
    Py (Grouped ρ) :=
  match extract item with
  | .error e => .error e
  | .ok (repoJ, r) =>
    match toKey repoJ with
    | .error e => .error e
    | .ok k => .ok (addAssoc k r g)

/-- The grouping loop over all raw items. -/
def groupFold (extract : Json → Py (Json × ρ)) :
    Grouped ρ → List Json → Py (Grouped ρ)
  | g, [] => .ok g
  | g, item :: items =>
    match groupStep extract g item with
    | .error e => .error e
    | .ok g' => groupFold extract g' items

/-- Descending-by-date record comparison,
`key=lambda x: x['date'] or datetime.min`. -/
def cmpByDate (dateOf : ρ → Option PyDT) (a b : ρ) : Py Ordering :=
  pyCompareDT (dateKey (dateOf a)) (dateKey (dateOf b))

/-- Sort every group's records by date, newest first. -/
def sortGroups (dateOf : ρ → Option PyDT) :
    Grouped ρ → Py (Grouped ρ)
  | [] => .ok []
  | (k, rs) :: t =>
    match pySort (cmpByDate dateOf) (fun o => o = .gt) rs with
    | .error e => .error e
    | .ok rs' =>
      match sortGroups dateOf t with
      | .error e => .error e
      | .ok t' => .ok ((k, rs') :: t')

/-- The shared shape of the three classifiers: iterate the raw data,
group the extracted records by repository, then sort each group by
descending date. -/
def processWith (extract : Json → Py (Json × ρ))
    (dateOf : ρ → Option PyDT) (data : Json) : Py (Grouped ρ) :=
  match pyIter data with
  | .error e => .error e
  | .ok items =>
    match groupFold extract [] items with
    | .error e => .error e
    | .ok g => sortGroups dateOf g

/-- Per-item extraction of `process_commits`. -/
def extractCommit (item : Json) : Py (Json × CommitRec) :=
  match jget item (chars "repository") (.obj []) with
  | .error e => .error e
  | .ok repoObj =>
    match jget repoObj (chars "name") (.str (chars "unknown")) with
    | .error e => .error e
    | .ok repo =>
      match jget item (chars "commit") (.obj []) with
      | .error e => .error e
      | .ok commit =>
        match jget commit (chars "author") (.obj []) with
        | .error e => .error e
        | .ok author =>
          match jget author (chars "date") .null with
          | .error e => .error e
          | .ok dateJ =>
            match parse_date dateJ with
            | .error e => .error e
            | .ok date =>
              match jget commit (chars "message") (.str []) with
              | .error e => .error e
              | .ok msgJ =>
                match get_first_line msgJ with
                | .error e => .error e
                | .ok message => .ok (repo, ⟨date, message⟩)

/-- Repository identifier of an issue/PR item:
`item.get('repository', {}).get('nameWithOwner',
 item.get('repository', {}).get('name', 'unknown'))`. -/
def issueRepo (item : Json) : Py Json :=
  match jget item (chars "repository") (.obj []) with
  | .error e => .error e
  | .ok repoObj =>
    match jget repoObj (chars "name") (.str (chars "unknown")) with
    | .error e => .error e
    | .ok fallback => jget repoObj (chars "nameWithOwner") fallback

/-- Per-item extraction of `process_issues`. -/
def extractIssue (item : Json) : Py (Json × IssueRec) :=
  match issueRepo item with
  | .error e => .error e
  | .ok repo =>
    match jget item (chars "createdAt") .null with
    | .error e => .error e
    | .ok dateJ =>
      match parse_date dateJ with
      | .error e => .error e
      | .ok date =>
        match jget item (chars "title") (.str []) with
        | .error e => .error e
        | .ok title =>
          match jget item (chars "state") (.str []) with
          | .error e => .error e
          | .ok stateJ =>
            match pyLowerJ stateJ with
            | .error e => .error e
            | .ok state =>
              match jget item (chars "url") (.str []) with
              | .error e => .error e
              | .ok url =>
                match jget item (chars "body") (.str []) with
                | .error e => .error e
                | .ok body => .ok (repo, ⟨title, state, date, url, body⟩)

/-- Per-item extraction of `process_prs`; `merged` is
`item.get('state', '').lower() == 'merged'`. -/
def extractPr (item : Json) : Py (Json × PrRec) :=
  match issueRepo item with
  | .error e => .error e
  | .ok repo =>
    match jget item (chars "createdAt") .null with
    | .error e => .error e
    | .ok dateJ =>
      match parse_date dateJ with
      | .error e => .error e
      | .ok date =>
        match jget item (chars "title") (.str []) with
        | .error e => .error e
        | .ok title =>
          match jget item (chars "state") (.str []) with
          | .error e => .error e
          | .ok stateJ =>
            match pyLowerJ stateJ with
            | .error e => .error e
            | .ok state =>
              match jget item (chars "url") (.str []) with
              | .error e => .error e
              | .ok url =>
                match jget item (chars "body") (.str []) with
                | .error e => .error e
                | .ok body =>
                  .ok (repo, ⟨title, state, date, url,
                        state = chars "merged", body⟩)

/-- `process_commits` from the source. -/
def process_commits (data : Json) : Py (Grouped CommitRec) :=
  processWith extractCommit CommitRec.date data

/-- `process_issues` from the source. -/
def process_issues (data : Json) : Py (Grouped IssueRec) :=
  processWith extractIssue IssueRec.date data

/-- `process_prs` from the source. -/
def process_prs (data : Json) : Py (Grouped PrRec) :=
  processWith extractPr PrRec.date data

/-! ### The renderer -/

/-- Decimal rendering of an integer. -/
def intStr (n : Int) : Str := (Int.repr n).data

/-- f-string conversion (`str()`) of a JSON value.  Scalars are rendered
as Python renders them; the container cases are a simplified stand-in for
Python's `repr` (they are reachable only for container-valued titles,
which no claim exercises). -/
def pyFormat : Json → Str
  | .null => chars "None"
  | .bool true => chars "True"
  | .bool false => chars "False"
  | .num n => intStr n
  | .str s => s
  | .arr _ => chars "[...]"
  | .obj _ => chars "{...}"

/-- f-string conversion of a dictionary key. -/
def keyFormat : PyKey → Str
  | .null => chars "None"
  | .bool true => chars "True"
  | .bool false => chars "False"
  | .num n => intStr n
  | .str s => s

/-- Lexicographic three-way comparison of strings by code point
(Python `str` comparison). -/
def strLexCmp : Str → Str → Ordering
  | [], [] => .eq
  | [], _ :: _ => .lt
  | _ :: _, [] => .gt
  | a :: as, b :: bs =>
    match cmpInt a.toNat b.toNat with
    | .eq => strLexCmp as bs
    | o => o

/-- Numeric view of a key (`bool` compares as an integer in Python). -/
def keyNum : PyKey → Option Int
  | .num n => some n
  | .bool b => some (if b then 1 else 0)
  | _ => none

/-- Comparison of dictionary keys, as `sorted()` compares them: strings
lexicographically, numbers (and booleans) numerically; any other pairing
— including `None` with anything, even itself — raises `TypeError`. -/
def keyCmp (a b : PyKey) : Py Ordering :=
  match a, b with
  | .str s, .str t => .ok (strLexCmp s t)
  | _, _ =>
    match keyNum a, keyNum b with
    | some x, some y => .ok (cmpInt x y)
    | _, _ => .error "TypeError"

/-- `sorted(grouped.keys())`. -/
def sortedKeys (g : Grouped ρ) : Py (List PyKey) :=
  pySort keyCmp (fun o => o = .lt) (g.map Prod.fst)

/-- `grouped[repo]` for a key that the grouping produced (dict lookup,
hence Python key equality). -/
def assocGet : Grouped ρ → PyKey → List ρ
  | [], _ => []
  | (k', rs) :: t, k => if pyKeyEq k' k then rs else assocGet t k

/-- ` [<state>]`, omitted when the state is empty. -/
def statePart (s : Str) : Str :=
  if s.isEmpty then [] else chars " [" ++ s ++ chars "]"

/-- ` (<Mon DD>)`, omitted when the date is absent. -/
def datePart (o : Option PyDT) : Str :=
  let ds := format_date o
  if ds.isEmpty then [] else chars " (" ++ ds ++ chars ")"

/-- The list line of one commit record. -/
def commitLine (r : CommitRec) : Str :=
  chars "- " ++ r.message ++ datePart r.date

/-- Lines of one commit record (always exactly one). -/
def commitItemLines (r : CommitRec) : Py (List Str) := .ok [commitLine r]

/-- The list line of one issues-created record. -/
def issueLine (r : IssueRec) : Str :=
  chars "- " ++ pyFormat r.title ++ datePart r.date ++ statePart r.state

/-- Lines of one issues-created record: the list line, followed by the
formatted body when body inclusion is enabled. -/
def issueCreatedLines (ib : Bool) (r : IssueRec) : Py (List Str) :=
  if ib then
    match format_body r.body with
    | .error e => .error e
    | .ok bs => .ok (issueLine r :: bs)
  else .ok [issueLine r]

/-- Lines of one issues-commented record (no date, no body). -/
def issueCommentedLines (r : IssueRec) : Py (List Str) :=
  .ok [chars "- " ++ pyFormat r.title ++ statePart r.state]

/-- The bracketed tag of a PRs-Created line: literally ` [merged]` when
the record is merged, else the state tag. -/
def prStatePart (r : PrRec) : Str :=
  if r.merged then chars " [merged]" else statePart r.state

/-- The list line of one PRs-created record. -/
def prLine (r : PrRec) : Str :=
  chars "- " ++ pyFormat r.title ++ datePart r.date ++ prStatePart r

/-- Lines of one PRs-created record. -/
def prCreatedLines (ib : Bool) (r : PrRec) : Py (List Str) :=
  if ib then
    match format_body r.body with
    | .error e => .error e
    | .ok bs => .ok (prLine r :: bs)
  else .ok [prLine r]

/-- Lines of one PRs-reviewed record (no date, no body, no merged tag). -/
def prReviewedLines (r : PrRec) : Py (List Str) :=
  .ok [chars "- " ++ pyFormat r.title ++ statePart r.state]

/-- Concatenated lines of a repository's records. -/
def renderItems (f : ρ → Py (List Str)) : List ρ → Py (List Str)
  | [] => .ok []
  | r :: rs =>
    match f r with
    | .error e => .error e
    | .ok ls =>
      match renderItems f rs with
      | .error e => .error e
      | .ok rest => .ok (ls ++ rest)

/-- One `### repo` block per key, each followed by a blank line. -/
def renderRepos (g : Grouped ρ) (f : ρ → Py (List Str)) :
    List PyKey → Py (List Str)
  | [] => .ok []
  | k :: ks =>
    match renderItems f (assocGet g k) with
    | .error e => .error e
    | .ok il =>
      match renderRepos g f ks with
      | .error e => .error e
      | .ok rest =>
        .ok ((chars "### " ++ keyFormat k) :: il ++ [[]] ++ rest)

/-- One document section: the heading, a blank line, then either the
literal `None` (and a blank line) or the repository blocks in sorted key
order. -/
def renderSection (header : Str) (g : Grouped ρ) (f : ρ → Py (List Str)) :
    Py (List Str) :=
  if g.isEmpty then .ok [header, [], chars "None", []]
  else
    match sortedKeys g with
    | .error e => .error e
    | .ok ks =>
      match renderRepos g f ks with
      | .error e => .error e
      | .ok body => .ok (header :: [] :: body)

/-- Total record count of a category. -/
def countRecs (g : Grouped ρ) : Nat := (g.map (fun kv => kv.2.length)).sum

/-- The present dates of all commit records. -/
def datesC (g : Grouped CommitRec) : List PyDT :=
  g.flatMap (fun kv => kv.2.filterMap CommitRec.date)

/-- The present dates of all issue records. -/
def datesI (g : Grouped IssueRec) : List PyDT :=
  g.flatMap (fun kv => kv.2.filterMap IssueRec.date)

/-- `min(all_dates)`: sequential fold, first minimum kept, raising if two
incomparable datetimes meet. -/
def pyFoldMin : PyDT → List PyDT → Py PyDT
  | cur, [] => .ok cur
  | cur, d :: ds =>
    match pyCompareDT d cur with
    | .error e => .error e
    | .ok o => pyFoldMin (if o = .lt then d else cur) ds

/-- `max(all_dates)` analogously. -/
def pyFoldMax : PyDT → List PyDT → Py PyDT
  | cur, [] => .ok cur
  | cur, d :: ds =>
    match pyCompareDT d cur with
    | .error e => .error e
    | .ok o => pyFoldMax (if o = .gt then d else cur) ds

def pyMinD : List PyDT → Py PyDT
  | [] => .error "ValueError"
  | d :: ds => pyFoldMin d ds

def pyMaxD : List PyDT → Py PyDT
  | [] => .error "ValueError"
  | d :: ds => pyFoldMax d ds

/-- The `period` value of the metadata block. -/
def periodOf (allDates : List PyDT) : Py Str :=
  if allDates.isEmpty then .ok (chars "unknown")
  else
    match pyMinD allDates with
    | .error e => .error e
    | .ok mn =>
      match pyMaxD allDates with
      | .error e => .error e
      | .ok mx => .ok (fmtYMD mn ++ chars " to " ++ fmtYMD mx)

/-- `generate_markdown` from the source, producing the document as its
list of lines (the source returns `"\n".join(lines)`; see
`generate_markdown_text`). -/
def generate_markdown (commits : Grouped CommitRec)
    (issues_created issues_commented : Grouped IssueRec)
    (prs_created prs_reviewed : Grouped PrRec)
    (dirName : Str) (includeBody : Bool) : Py (List Str) :=
  match periodOf (datesC commits ++ datesI issues_created) with
  | .error e => .error e
  | .ok period =>
    let tC := countRecs commits
    let tIC := countRecs issues_created
    let tICom := countRecs issues_commented
    let tPC := countRecs prs_created
    let tPR := countRecs prs_reviewed
    match renderSection (chars "## Commits (" ++ natStr tC ++ chars ")")
        commits commitItemLines with
    | .error e => .error e
    | .ok s1 =>
      match renderSection (chars "## Issues Created (" ++ natStr tIC ++ chars ")")
          issues_created (issueCreatedLines includeBody) with
      | .error e => .error e
      | .ok s2 =>
        match renderSection (chars "## Issues Commented (" ++ natStr tICom ++ chars ")")
            issues_commented issueCommentedLines with
        | .error e => .error e
        | .ok s3 =>
          match renderSection (chars "## PRs Created (" ++ natStr tPC ++ chars ")")
              prs_created (prCreatedLines includeBody) with
          | .error e => .error e
          | .ok s4 =>
            match renderSection (chars "## PRs Reviewed (" ++ natStr tPR ++ chars ")")
                prs_reviewed prReviewedLines with
            | .error e => .error e
            | .ok s5 =>
              .ok ([chars "---",
                    chars "period: " ++ period,
                    chars "source: " ++ dirName,
                    chars "commits: " ++ natStr tC,
                    chars "issues_created: " ++ natStr tIC,
                    chars "issues_commented: " ++ natStr tICom,
                    chars "prs_created: " ++ natStr tPC,
                    chars "prs_reviewed: " ++ natStr tPR,
                    chars "---", [],
                    chars "# Weekly GitHub Activity", []]
                   ++ s1 ++ s2 ++ s3 ++ s4 ++ s5)

/-- `"\n".join(lines)`. -/
def joinNl : List Str → Str
  | [] => []
  | [l] => l
  | l :: rest => l ++ '\n' :: joinNl rest

/-- The document as the single string the source returns. -/
def generate_markdown_text (commits : Grouped CommitRec)
    (issues_created issues_commented : Grouped IssueRec)
    (prs_created prs_reviewed : Grouped PrRec)
    (dirName : Str) (includeBody : Bool) : Py Str :=
  match generate_markdown commits issues_created issues_commented
      prs_created prs_reviewed dirName includeBody with
  | .error e => .error e
  | .ok ls => .ok (joinNl ls)

/-! ### The loader and the orchestrated pipeline -/

/-- The observable outcome of `open` + `json.load` on one input file.
`badJson` covers a file that opens but whose text `json.load` rejects —
including the empty file, on which `json.load` raises
`JSONDecodeError`.  `ioError` covers `open` raising an `OSError` other
than `FileNotFoundError` (e.g. `PermissionError` for an unreadable
file). -/
inductive OpenResult where
  | fileNotFound
  | ioError (e : String)
  | badJson
  | jsonValue (j : Json)

/-- `load_json` from the source: `FileNotFoundError` and
`JSONDecodeError` are caught and give `[]`; other I/O errors propagate;
a parsed but falsy document (`{}`, `0`, `null`, …) is replaced by `[]`
by `data if data else []`. -/
def load_json : OpenResult → Py Json
  | .fileNotFound => .ok (.arr [])
  | .ioError e => .error e
  | .badJson => .ok (.arr [])
  | .jsonValue j => .ok (if pyTruthy j then j else .arr [])

/-- The data-to-document pipeline: classify the five collections, then
render (the pure core of `main`). -/
def transform (c ic icc pc pr : Json) (dirName : Str) (ib : Bool) :
    Py (List Str) :=
  match process_commits c with
  | .error e => .error e
  | .ok gc =>
    match process_issues ic with
    | .error e => .error e
    | .ok gic =>
      match process_issues icc with
      | .error e => .error e
      | .ok gicc =>
        match process_prs pc with
        | .error e => .error e
        | .ok gpc =>
          match process_prs pr with
          | .error e => .error e
          | .ok gpr =>
            generate_markdown gc gic gicc gpc gpr dirName ib

/-- The pipeline from the five file outcomes (load, classify, render). -/
def runPipeline (r1 r2 r3 r4 r5 : OpenResult) (dirName : Str) (ib : Bool) :
    Py (List Str) :=
  match load_json r1 with
  | .error e => .error e
  | .ok c =>
    match load_json r2 with
    | .error e => .error e
    | .ok ic =>
      match load_json r3 with
      | .error e => .error e
      | .ok icc =>
        match load_json r4 with
        | .error e => .error e
        | .ok pc =>
          match load_json r5 with
          | .error e => .error e
          | .ok pr => transform c ic icc pc pr dirName ib

/-! ### Spec-side definitions

These follow the spec's words (not the source) and exist only to be
compared against the source-derived definitions above. -/

/-- A blank line: empty or whitespace-only. -/
def blankLine (l : Str) : Bool := l.all pyWs

/-- The body rendering as claim C9 words it: split the body into lines,
trim the leading and trailing blank *lines*, and prefix each remaining
line with a two-space indent and `"> "`. -/
def claimBodyLines (b : Str) : List Str :=
  let ls := b.splitOn '\n'
  let trimmed := ((ls.dropWhile blankLine).reverse.dropWhile blankLine).reverse
  trimmed.map (fun line => chars "  > " ++ line)

/-! ### Concrete inputs used by counterexamples and witnesses -/

/-- An issue item whose `repository` field is present but `null`. -/
def itemNullRepo : Json := .obj [(chars "repository", .null)]

/-- An issue item with no date at all. -/
def itemNoDate : Json := .obj [(chars "title", .str (chars "no date"))]

/-- An issue item dated at `datetime.min`. -/
def itemMinDate : Json :=
  .obj [(chars "title", .str (chars "min date")),
        (chars "createdAt", .str (chars "0001-01-01T00:00:00"))]

/-- A PR item with a parseable creation date. -/
def itemDatedPr : Json :=
  .obj [(chars "title", .str (chars "p")),
        (chars "createdAt", .str (chars "2025-11-20T10:00:00Z"))]

/-- The descending-by-date relation the claim is about: `a` may precede
`b` when `b`'s sort key is no later than `a`'s. -/
def descByDate (dOf : ρ → Option PyDT) (a b : ρ) : Prop :=
  utcVal (dateKey (dOf b)) ≤ utcVal (dateKey (dOf a))

/-- The value of a successful computation, with a fallback. -/
def okOr (x : Py α) (d : α) : α :=
  match x with
  | .ok v => v
  | .error _ => d

/-- Issue data for the C2 witness: one undated item and two naive-dated
items, oldest first. -/
def c2data : Json := .arr [
  itemNoDate,
  .obj [(chars "title", .str (chars "jan 2")),
        (chars "createdAt", .str (chars "2025-01-02T00:00:00"))],
  .obj [(chars "title", .str (chars "jan 3")),
        (chars "createdAt", .str (chars "2025-01-03T00:00:00"))]]

/-- The group structure the classifier produces for `c2data`. -/
def c2group : Grouped IssueRec := okOr (process_issues c2data) []

/-! ### Well-formedness predicates for the amended C1 -/

/-- Containers (unhashable, method-less in the ways the classifiers
need). -/
def isContainer : Json → Bool
  | .arr _ => true
  | .obj _ => true
  | _ => false

/-- A value that `parse_date`/`get_first_line` accept: falsy (taken as
absent) or an actual string. -/
def strOrFalsy (j : Json) : Bool :=
  !(pyTruthy j) ||
    (match j with
     | .str _ => true
     | _ => false)

/-- The repository identifier an issue/PR item resolves to is hashable. -/
def repoNameOk (rf : List (Str × Json)) : Bool :=
  match jlookup rf (chars "nameWithOwner") with
  | some v => !isContainer v
  | none =>
    match jlookup rf (chars "name") with
    | some v => !isContainer v
    | none => true

/-- Shape conditions under which `process_commits` cannot raise on an
item: the item is an object; `repository`, `commit` and `author`, when
present, are objects; `repository.name`, when present, is hashable; the
date and message, when present, are strings or falsy. -/
def wfCommitItem (item : Json) : Bool :=
  match item with
  | .obj fields =>
    (match jlookup fields (chars "repository") with
     | none => true
     | some (.obj rf) =>
       (match jlookup rf (chars "name") with
        | none => true
        | some v => !isContainer v)
     | some _ => false) &&
    (match jlookup fields (chars "commit") with
     | none => true
     | some (.obj cf) =>
       (match jlookup cf (chars "author") with
        | none => true
        | some (.obj af) =>
          (match jlookup af (chars "date") with
           | none => true
           | some d => strOrFalsy d)
        | some _ => false) &&
       (match jlookup cf (chars "message") with
        | none => true
        | some m => strOrFalsy m)
     | some _ => false)
  | _ => false

/-- Shape conditions under which `process_issues`/`process_prs` cannot
raise on an item: the item is an object; `repository`, when present, is
an object resolving to a hashable identifier; `createdAt`, when present,
is a string or falsy; `state`, when present, is a string. -/
def wfIssueItem (item : Json) : Bool :=
  match item with
  | .obj fields =>
    (match jlookup fields (chars "repository") with
     | none => true
     | some (.obj rf) => repoNameOk rf
     | some _ => false) &&
    (match jlookup fields (chars "createdAt") with
     | none => true
     | some d => strOrFalsy d) &&
    (match jlookup fields (chars "state") with
     | none => true
     | some (.str _) => true
     | some _ => false)
  | _ => false

/-- The timezone class of a sort key (`true` = offset-aware). -/
def tzClassOf (o : Option PyDT) : Bool := (dateKey o).tz.isSome

/-- All records of one group have the same timezone class, so their sort
keys are mutually comparable. -/
def uniformGroup (dOf : ρ → Option PyDT) (rs : List ρ) : Bool :=
  match rs with
  | [] => true
  | r :: rest => rest.all (fun r' => tzClassOf (dOf r') == tzClassOf (dOf r))

/-- Comparability condition over an entire grouping. -/
def uniformGroups (dOf : ρ → Option PyDT) (g : Grouped ρ) : Bool :=
  g.all (fun kv => uniformGroup dOf kv.2)

/-- A fully well-formed commit item, for witnesses (the spec's own
end-to-end example). -/
def commitItemA : Json :=
  .obj [(chars "repository", .obj [(chars "name", .str (chars "acme/app"))]),
        (chars "commit", .obj [
          (chars "message", .str (chars "Fix bug\nDetails...")),
          (chars "author", .obj [
            (chars "date", .str (chars "2025-11-20T10:00:00Z"))])])]

/-- An issue record with body `"line1\nline2"`, for the C9 witness. -/
def issueRecB : IssueRec :=
  ⟨.str (chars "t"), [], none, .str [], .str (chars "line1\nline2")⟩

/-- The parsed form of `2025-11-20T10:00:00Z` (offset-aware UTC). -/
def dtA : PyDT := ⟨2025, 11, 20, 10, 0, 0, some 0⟩

/-- Grouped commits for the C5 witness. -/
def c5commits : Grouped CommitRec := okOr (process_commits (.arr [commitItemA])) []

/-- The rendered document for the C5 witness. -/
def c5doc : List Str :=
  okOr (generate_markdown c5commits [] [] [] [] (chars "d") false) []

/-- The order `sorted()` uses on keys, as a relation: `a` is no greater
than `b`. -/
def keyLe (a b : PyKey) : Prop :=
  keyCmp a b = .ok .lt ∨ keyCmp a b = .ok .eq

/-- Bool test: `pat` is an initial run of `l`. -/
def leadsWith : Str → Str → Bool
  | [], _ => true
  | _ :: _, [] => false
  | c :: p, d :: l => c == d && leadsWith p l

/-- A rendered line that opens a repository subsection. -/
def isRepoHeading (l : Str) : Bool := leadsWith (chars "### ") l

/-- The keys of a grouping, in insertion order. -/
def keysOf (g : Grouped ρ) : List PyKey := g.map Prod.fst

/-- Items for the C8 witness: two issues in different repositories. -/
def c8item1 : Json :=
  .obj [(chars "repository", .obj [(chars "nameWithOwner", .str (chars "bbb"))]),
        (chars "title", .str (chars "t1"))]

def c8item2 : Json :=
  .obj [(chars "repository", .obj [(chars "nameWithOwner", .str (chars "aaa"))]),
        (chars "title", .str (chars "t2"))]

def c8g : Grouped IssueRec := okOr (process_issues (.arr [c8item1, c8item2])) []

def c8g' : Grouped IssueRec := okOr (process_issues (.arr [c8item2, c8item1])) []

def c8ks : List PyKey := okOr (sortedKeys c8g) []

def c8ks' : List PyKey := okOr (sortedKeys c8g') []

/-- Mask the top-level `url` field of an item: two items "differ only in
their `url` values" exactly when their masked forms are equal. -/
def stripUrl (j : Json) : Json :=
  match j with
  | .obj fs => .obj (fs.map (fun kv =>
      if kv.1 = chars "url" then (kv.1, Json.null) else kv))
  | _ => j

/-- Mask the `url` fields of every item of a dataset. -/
def stripUrlData (j : Json) : Json :=
  match j with
  | .arr l => .arr (l.map stripUrl)
  | _ => j

/-- Mask the `url` field of a normalised issue record. -/
def scrubI (r : IssueRec) : IssueRec := { r with url := .null }

/-- Mask the `url` field of a normalised PR record. -/
def scrubP (r : PrRec) : PrRec := { r with url := .null }

/-- Mask the `url` fields throughout a grouping. -/
def scrubG (h : ρ → ρ) (g : Grouped ρ) : Grouped ρ :=
  g.map (fun kv => (kv.1, kv.2.map h))

/-- A PR item identical to `itemDatedPr` except for an added url. -/
def itemDatedPrU (u : String) : Json :=
  .obj [(chars "title", .str (chars "p")),
        (chars "createdAt", .str (chars "2025-11-20T10:00:00Z")),
        (chars "url", .str (chars u))]

/-! ### Theorems for the claims -/

/-- **C7.** When all five input files are missing, the rendered document
has its period line equal to `unknown`, all five category counts equal to
`0`, and each of the five sections consisting of the literal line `None`
(followed by a blank line): the pipeline output is exactly this
document. -/
theorem claim_C7 :
    runPipeline .fileNotFound .fileNotFound .fileNotFound .fileNotFound
        .fileNotFound (chars "gh") false =
      .ok [chars "---",
           chars "period: unknown",
           chars "source: gh",
           chars "commits: 0",
           chars "issues_created: 0",
           chars "issues_commented: 0",
           chars "prs_created: 0",
           chars "prs_reviewed: 0",
           chars "---", [],
           chars "# Weekly GitHub Activity", [],
           chars "## Commits (0)", [], chars "None", [],
           chars "## Issues Created (0)", [], chars "None", [],
           chars "## Issues Commented (0)", [], chars "None", [],
           chars "## PRs Created (0)", [], chars "None", [],
           chars "## PRs Reviewed (0)", [], chars "None", []] := by
  rfl

/-- **C1, counterexample.**  A raw issue item whose `repository` field is
present but `null` — one of the malformed shapes the claim says can never
abort a run — makes `process_issues` raise `AttributeError`
(`None.get(...)` in `item.get('repository', {}).get(...)`). -/
theorem claim_C1_counterexample :
    process_issues (.arr [itemNullRepo]) = .error "AttributeError" := by
  rfl

/-- **C2, counterexample.**  For the input `[<item with no date>, <item
dated 0001-01-01T00:00:00>]` both records get the sort key
`datetime.min`, so the stable sort keeps the original order and the
absent-date record appears *before* the present-date record in its
group: the sorted group's `date.isSome` sequence is `[false, true]`. -/
theorem claim_C2_counterexample :
    (process_issues (.arr [itemNoDate, itemMinDate])).map
        (fun g => g.map (fun kv => kv.2.map (fun r => r.date.isSome))) =
      .ok [[false, true]] := by
  rfl

/-- **C5, counterexample.**  With no commit and no issues-created
records but one dated PRs-created record, the period line is the literal
`unknown` even though a dated record exists in the document — refuting
"`unknown` exactly when no dated records exist anywhere".  The second
conjunct shows the PR record in question does carry a present date. -/
theorem claim_C5_counterexample :
    (transform (.arr []) (.arr []) (.arr []) (.arr [itemDatedPr]) (.arr [])
        (chars "d") false).map (fun ls => ls.getD 1 []) =
      .ok (chars "period: unknown") ∧
    (process_prs (.arr [itemDatedPr])).map
        (fun g => g.map (fun kv => kv.2.map (fun r => r.date.isSome))) =
      .ok [[true]] := by
  exact ⟨rfl, rfl⟩

/-- **C6, counterexample.**  The loader does *not* absorb every
unreadable file: `open` raising `PermissionError` is not caught (only
`FileNotFoundError` and `json.JSONDecodeError` are), so it propagates to
the caller.  Moreover a readable file whose valid JSON content is falsy
(here `{}`) yields `[]`, not the parsed content. -/
theorem claim_C6_counterexample :
    load_json (.ioError "PermissionError") = .error "PermissionError" ∧
    load_json (.jsonValue (.obj [])) = .ok (.arr []) := by
  exact ⟨rfl, rfl⟩

/-- **C9, counterexample.**  For the body `"  a"` the source strips the
leading whitespace of the (non-blank) first line and renders `"  > a"`,
while the claim's "each line after trimming leading/trailing blank
lines" reading leaves the line `"  a"` intact and predicts `"  >   a"`:
the two renderings differ. -/
theorem claim_C9_counterexample :
    format_body (.str (chars "  a")) = .ok [chars "  > a"] ∧
    claimBodyLines (chars "  a") = [chars "  >   a"] ∧
    [chars "  > a"] ≠ claimBodyLines (chars "  a") := by
  refine ⟨rfl, rfl, ?_⟩
  decide

/-- `get_first_line` on a string argument never raises and equals the
pure computation `firstLineStr` (the falsy shortcut for `''` coincides
with it). -/
theorem get_first_line_str (s : Str) :
    get_first_line (.str s) = .ok (firstLineStr s) := by
  cases s with
  | nil => rfl
  | cons c t => rfl

/-- **C3.** For every commit raw message string, the normalised message
is the first newline-separated line with surrounding whitespace
stripped; when that stripped line exceeds 80 characters the result is
exactly its first 77 characters followed by `...` — total length 80 —
and otherwise the stripped line is kept unchanged. -/
theorem claim_C3 (s : Str) :
    (80 < (pyStrip ((s.splitOn '\n').headD [])).length →
      get_first_line (.str s) =
        .ok ((pyStrip ((s.splitOn '\n').headD [])).take 77 ++ chars "...") ∧
      ((pyStrip ((s.splitOn '\n').headD [])).take 77 ++ chars "...").length = 80) ∧
    ((pyStrip ((s.splitOn '\n').headD [])).length ≤ 80 →
      get_first_line (.str s) = .ok (pyStrip ((s.splitOn '\n').headD []))) := by
  have hlen3 : (chars "...").length = 3 := rfl
  constructor
  · intro h
    constructor
    · rw [get_first_line_str]
      unfold firstLineStr
      simp only []
      rw [if_pos h]
    · simp only [List.length_append, List.length_take, hlen3]
      omega
  · intro h
    rw [get_first_line_str]
    unfold firstLineStr
    simp only []
    rw [if_neg (by omega)]

/-- Witness for C3 at a concrete 81-character message: the truncation
branch applies and produces an 80-character result. -/
theorem claim_C3_witness :
    80 < (pyStrip (((List.replicate 81 'a').splitOn '\n').headD [])).length ∧
    get_first_line (.str (List.replicate 81 'a')) =
      .ok ((pyStrip (((List.replicate 81 'a').splitOn '\n').headD [])).take 77
            ++ chars "...") ∧
    ((pyStrip (((List.replicate 81 'a').splitOn '\n').headD [])).take 77
      ++ chars "...").length = 80 :=
  ⟨by decide, ((claim_C3 _).1 (by decide)).1, ((claim_C3 _).1 (by decide)).2⟩

/-- Successful PR extraction determines `state` and `merged` from the raw
`state` string: `state` is its lower-casing and `merged` tests equality
with `"merged"` after lower-casing. -/
theorem extractPr_state (item : Json) (s : Str) (repo : Json) (rec : PrRec)
    (hstate : jget item (chars "state") (.str []) = .ok (.str s))
    (hex : extractPr item = .ok (repo, rec)) :
    rec.state = pyLowerStr s ∧
      rec.merged = decide (pyLowerStr s = chars "merged") := by
  unfold extractPr at hex
  cases h1 : issueRepo item with
  | error e => simp only [h1] at hex; exact (nomatch hex)
  | ok repoV =>
    simp only [h1] at hex
    cases h2 : jget item (chars "createdAt") .null with
    | error e => simp only [h2] at hex; exact (nomatch hex)
    | ok dateJ =>
      simp only [h2] at hex
      cases h3 : parse_date dateJ with
      | error e => simp only [h3] at hex; exact (nomatch hex)
      | ok date =>
        simp only [h3] at hex
        cases h4 : jget item (chars "title") (.str []) with
        | error e => simp only [h4] at hex; exact (nomatch hex)
        | ok title =>
          simp only [h4] at hex
          simp only [hstate] at hex
          simp only [pyLowerJ] at hex
          cases h6 : jget item (chars "url") (.str []) with
          | error e => simp only [h6] at hex; exact (nomatch hex)
          | ok url =>
            simp only [h6] at hex
            cases h7 : jget item (chars "body") (.str []) with
            | error e => simp only [h7] at hex; exact (nomatch hex)
            | ok body =>
              simp only [h7] at hex
              rw [Except.ok.injEq, Prod.mk.injEq] at hex
              rw [← hex.2]
              exact ⟨rfl, rfl⟩

/-- **C4.** For every PRs-created record, the rendered bracketed tag is
literally ` [merged]` if and only if the record's raw state string,
lowercased, equals `"merged"` exactly; otherwise the tag is
` [<lowercased state>]`, and it is omitted entirely when the state is
empty.  (The leading space is the f-string separator
`f" [{item['state']}]"`.) -/
theorem claim_C4 (item : Json) (s : Str) (repo : Json) (rec : PrRec)
    (hstate : jget item (chars "state") (.str []) = .ok (.str s))
    (hex : extractPr item = .ok (repo, rec)) :
    (prStatePart rec = chars " [merged]" ↔ pyLowerStr s = chars "merged") ∧
    (pyLowerStr s ≠ chars "merged" → pyLowerStr s ≠ [] →
      prStatePart rec = chars " [" ++ pyLowerStr s ++ chars "]") ∧
    (pyLowerStr s = [] → prStatePart rec = []) := by
  obtain ⟨hs, hm⟩ := extractPr_state item s repo rec hstate hex
  unfold prStatePart statePart
  rw [hs, hm]
  by_cases hd : pyLowerStr s = chars "merged"
  · refine ⟨by simp [hd], fun hne _ => absurd hd hne, fun he => ?_⟩
    rw [hd] at he
    exact absurd he (by decide)
  · rw [decide_eq_false hd]
    simp only [Bool.false_eq_true, if_false]
    refine ⟨⟨fun habs => ?_, fun habs => absurd habs hd⟩, fun _ hne => ?_, fun he => ?_⟩
    · by_cases he : (pyLowerStr s).isEmpty
      · rw [if_pos he] at habs
        exact absurd habs (by decide)
      · rw [if_neg he, List.append_assoc] at habs
        rw [show chars " [merged]" =
              chars " [" ++ (chars "merged" ++ chars "]") from rfl] at habs
        exact absurd (List.append_cancel_right (List.append_cancel_left habs)) hd
    · rw [if_neg (by simpa [List.isEmpty_iff] using hne)]
    · rw [if_pos (by simpa [List.isEmpty_iff] using he)]

/-- Witness for C4 on the item `{"state": "MERGED"}`: the raw state
lower-cases to `"merged"` and the rendered tag is ` [merged]`. -/
theorem claim_C4_witness :
    prStatePart ⟨.str [], pyLowerStr (chars "MERGED"), none, .str [],
        decide (pyLowerStr (chars "MERGED") = chars "merged"), .str []⟩ =
      chars " [merged]" := by
  have h := claim_C4 (.obj [(chars "state", .str (chars "MERGED"))])
    (chars "MERGED") (.str (chars "unknown"))
    ⟨.str [], pyLowerStr (chars "MERGED"), none, .str [],
      decide (pyLowerStr (chars "MERGED") = chars "merged"), .str []⟩
    (by rfl) (by rfl)
  exact h.1.mpr (by decide)

/-! ### Properties of the sort model -/

section SortLemmas

variable {α : Type} {cmp : α → α → Py Ordering} {wb : Ordering → Bool}

/-- A successful insertion permutes the inserted element into the list. -/
theorem pyInsert_perm {x : α} :
    ∀ {l r : List α}, pyInsert cmp wb x l = .ok r → r.Perm (x :: l) := by
  intro l
  induction l with
  | nil =>
    intro r h
    simp only [pyInsert] at h
    injection h with h
    subst h
    exact List.Perm.refl _
  | cons y ys ih =>
    intro r h
    simp only [pyInsert] at h
    cases hc : cmp x y with
    | error e => simp only [hc] at h; exact (nomatch h)
    | ok o =>
      simp only [hc] at h
      by_cases hw : wb o
      · rw [if_pos hw] at h
        injection h with h
        subst h
        exact List.Perm.refl _
      · rw [if_neg hw] at h
        cases hr : pyInsert cmp wb x ys with
        | error e => simp only [hr] at h; exact (nomatch h)
        | ok r' =>
          simp only [hr] at h
          injection h with h
          subst h
          exact ((ih hr).cons y).trans (List.Perm.swap x y ys)

/-- A successful insertion into a `le`-sorted list is `le`-sorted, when
successful comparisons bound the elements as `wb` dictates. -/
theorem pyInsert_pairwise (le : α → α → Prop)
    (htrans : ∀ a b c, le a b → le b c → le a c)
    (hskip : ∀ a b o, cmp a b = .ok o → wb o = false → le b a)
    (hplace : ∀ a b o, cmp a b = .ok o → wb o = true → le a b)
    {x : α} :
    ∀ {l r}, pyInsert cmp wb x l = .ok r → l.Pairwise le → r.Pairwise le := by
  intro l
  induction l with
  | nil =>
    intro r h _
    simp only [pyInsert] at h
    injection h with h
    subst h
    exact List.pairwise_singleton le x
  | cons y ys ih =>
    intro r h hpw
    simp only [pyInsert] at h
    cases hc : cmp x y with
    | error e => simp only [hc] at h; exact (nomatch h)
    | ok o =>
      simp only [hc] at h
      by_cases hw : wb o
      · rw [if_pos hw] at h
        injection h with h
        subst h
        refine List.Pairwise.cons (fun z hz => ?_) hpw
        rcases List.mem_cons.mp hz with hz | hz
        · exact hz ▸ hplace x y o hc hw
        · exact htrans x y z (hplace x y o hc hw)
            ((List.pairwise_cons.mp hpw).1 z hz)
      · rw [if_neg hw] at h
        cases hr : pyInsert cmp wb x ys with
        | error e => simp only [hr] at h; exact (nomatch h)
        | ok r' =>
          simp only [hr] at h
          injection h with h
          subst h
          obtain ⟨hy, hys⟩ := List.pairwise_cons.mp hpw
          refine List.Pairwise.cons (fun z hz => ?_) (ih hr hys)
          rcases List.mem_cons.mp ((pyInsert_perm hr).mem_iff.mp hz) with hz | hz
          · exact hz ▸ hskip x y o hc (by simpa using hw)
          · exact hy z hz

/-- A successful sort permutes accumulator and input together. -/
theorem pySortAux_perm :
    ∀ {xs acc r : List α}, pySortAux cmp wb acc xs = .ok r → r.Perm (acc ++ xs) := by
  intro xs
  induction xs with
  | nil =>
    intro acc r h
    simp only [pySortAux] at h
    injection h with h
    subst h
    simp
  | cons x xs ih =>
    intro acc r h
    simp only [pySortAux] at h
    cases hi : pyInsert cmp wb x acc with
    | error e => simp only [hi] at h; exact (nomatch h)
    | ok acc' =>
      simp only [hi] at h
      exact ((ih h).trans ((pyInsert_perm hi).append_right xs)).trans
        List.perm_middle.symm

/-- A successful sort of any input onto a sorted accumulator is sorted. -/
theorem pySortAux_pairwise (le : α → α → Prop)
    (htrans : ∀ a b c, le a b → le b c → le a c)
    (hskip : ∀ a b o, cmp a b = .ok o → wb o = false → le b a)
    (hplace : ∀ a b o, cmp a b = .ok o → wb o = true → le a b) :
    ∀ {xs acc r : List α}, pySortAux cmp wb acc xs = .ok r →
      acc.Pairwise le → r.Pairwise le := by
  intro xs
  induction xs with
  | nil =>
    intro acc r h hpw
    simp only [pySortAux] at h
    injection h with h
    subst h
    exact hpw
  | cons x xs ih =>
    intro acc r h hpw
    simp only [pySortAux] at h
    cases hi : pyInsert cmp wb x acc with
    | error e => simp only [hi] at h; exact (nomatch h)
    | ok acc' =>
      simp only [hi] at h
      exact ih h (pyInsert_pairwise le htrans hskip hplace hi hpw)

/-- `pySort` success permutes its input. -/
theorem pySort_perm {l r : List α} (h : pySort cmp wb l = .ok r) : r.Perm l := by
  simpa using pySortAux_perm h

/-- `pySort` success is sorted. -/
theorem pySort_pairwise (le : α → α → Prop)
    (htrans : ∀ a b c, le a b → le b c → le a c)
    (hskip : ∀ a b o, cmp a b = .ok o → wb o = false → le b a)
    (hplace : ∀ a b o, cmp a b = .ok o → wb o = true → le a b)
    {l r : List α} (h : pySort cmp wb l = .ok r) : r.Pairwise le :=
  pySortAux_pairwise le htrans hskip hplace h List.Pairwise.nil

end SortLemmas

section SortSuccess

variable {α : Type}

/-- Insertion succeeds when the new element compares against every list
element. -/
theorem pyInsert_ok (c : α → α → Py Ordering) (w : Ordering → Bool) (x : α) :
    ∀ (l : List α), (∀ y ∈ l, ∃ o, c x y = .ok o) →
      ∃ r, pyInsert c w x l = .ok r := by
  intro l
  induction l with
  | nil => exact fun _ => ⟨[x], rfl⟩
  | cons y ys ih =>
    intro h
    obtain ⟨o, hc⟩ := h y (List.mem_cons_self y ys)
    by_cases hw : w o
    · exact ⟨x :: y :: ys, by simp only [pyInsert, hc, if_pos hw]⟩
    · obtain ⟨r', hr⟩ := ih (fun z hz => h z (List.mem_cons_of_mem y hz))
      exact ⟨y :: r', by simp only [pyInsert, hc, if_neg hw, hr]⟩

/-- The sort succeeds when all elements are pairwise comparable. -/
theorem pySortAux_ok (c : α → α → Py Ordering) (w : Ordering → Bool) :
    ∀ (xs acc : List α),
      (∀ a ∈ acc ++ xs, ∀ b ∈ acc ++ xs, ∃ o, c a b = .ok o) →
      ∃ r, pySortAux c w acc xs = .ok r := by
  intro xs
  induction xs with
  | nil => exact fun acc _ => ⟨acc, rfl⟩
  | cons x xs ih =>
    intro acc h
    obtain ⟨acc', hi⟩ := pyInsert_ok c w x acc
      (fun y hy => h x (by simp) y (by simp [hy]))
    have hmem : ∀ z ∈ acc', z ∈ acc ++ x :: xs := by
      intro z hz
      rcases List.mem_cons.mp ((pyInsert_perm hi).mem_iff.mp hz) with hz | hz
      · simp [hz]
      · simp [hz]
    obtain ⟨r, hr⟩ := ih acc' (fun a ha b hb => by
      rcases List.mem_append.mp ha with ha | ha
      · rcases List.mem_append.mp hb with hb | hb
        · exact h a (hmem a ha) b (hmem b hb)
        · exact h a (hmem a ha) b (by simp [hb])
      · rcases List.mem_append.mp hb with hb | hb
        · exact h a (by simp [ha]) b (hmem b hb)
        · exact h a (by simp [ha]) b (by simp [hb]))
    exact ⟨r, by simp only [pySortAux, hi, hr]⟩

/-- `pySort` succeeds on pairwise-comparable input. -/
theorem pySort_ok (c : α → α → Py Ordering) (w : Ordering → Bool)
    (l : List α) (h : ∀ a ∈ l, ∀ b ∈ l, ∃ o, c a b = .ok o) :
    ∃ r, pySort c w l = .ok r :=
  pySortAux_ok c w l [] (by simpa using h)

end SortSuccess

/-! ### The sorting discipline of the classifiers (C2) -/

/-- `cmpInt` is `.gt` exactly for a strictly greater left operand. -/
theorem cmpInt_gt_iff (a b : Int) : cmpInt a b = .gt ↔ b < a := by
  unfold cmpInt
  split_ifs with h1 h2 <;> simp <;> omega

/-- A successful datetime comparison reports the order of the
offset-adjusted values (for two naive datetimes the offsets are both
zero, so this covers both successful cases). -/
theorem pyCompareDT_ok_val (a b : PyDT) (o : Ordering)
    (h : pyCompareDT a b = .ok o) : o = cmpInt (utcVal a) (utcVal b) := by
  unfold pyCompareDT at h
  cases ha : a.tz with
  | none =>
    cases hb : b.tz with
    | none =>
      rw [ha, hb] at h
      injection h with h
      simp [utcVal, ha, hb, ← h]
    | some y => rw [ha, hb] at h; exact (nomatch h)
  | some x =>
    cases hb : b.tz with
    | none => rw [ha, hb] at h; exact (nomatch h)
    | some y =>
      rw [ha, hb] at h
      injection h with h
      exact h.symm

/-- Every group a successful `sortGroups` emits is sorted descending by
sort key. -/
theorem sortGroups_pairwise (dOf : ρ → Option PyDT) :
    ∀ (g g' : Grouped ρ), sortGroups dOf g = .ok g' →
      ∀ kv ∈ g', kv.2.Pairwise (descByDate dOf) := by
  intro g
  induction g with
  | nil =>
    intro g' h kv hkv
    simp only [sortGroups] at h
    injection h with h
    subst h
    exact absurd hkv (List.not_mem_nil kv)
  | cons p t ih =>
    intro g' h kv hkv
    obtain ⟨k, rs⟩ := p
    simp only [sortGroups] at h
    cases hs : pySort (cmpByDate dOf) (fun o => o = .gt) rs with
    | error e => simp only [hs] at h; exact (nomatch h)
    | ok rs' =>
      simp only [hs] at h
      cases ht : sortGroups dOf t with
      | error e => simp only [ht] at h; exact (nomatch h)
      | ok t' =>
        simp only [ht] at h
        injection h with h
        subst h
        rcases List.mem_cons.mp hkv with hkv | hkv
        · subst hkv
          refine pySort_pairwise (descByDate dOf) ?_ ?_ ?_ hs
          · intro a b c hab hbc
            exact le_trans hbc hab
          · intro a b o hc hw
            have hv := pyCompareDT_ok_val _ _ _ hc
            have : o ≠ .gt := by
              intro he
              rw [he] at hw
              simp at hw
            rw [hv] at this
            have := (not_iff_not.mpr (cmpInt_gt_iff _ _)).mp this
            exact le_of_not_lt this
          · intro a b o hc hw
            have hv := pyCompareDT_ok_val _ _ _ hc
            have : o = .gt := by simpa using hw
            rw [hv] at this
            exact le_of_lt ((cmpInt_gt_iff _ _).mp this)
        · exact ih t' ht kv hkv

/-- Successful classification is a successful sort of every group. -/
theorem processWith_pairwise (ex : Json → Py (Json × ρ))
    (dOf : ρ → Option PyDT) (data : Json) (g : Grouped ρ)
    (h : processWith ex dOf data = .ok g) :
    ∀ kv ∈ g, kv.2.Pairwise (descByDate dOf) := by
  unfold processWith at h
  cases h1 : pyIter data with
  | error e => simp only [h1] at h; exact (nomatch h)
  | ok items =>
    simp only [h1] at h
    cases h2 : groupFold ex [] items with
    | error e => simp only [h2] at h; exact (nomatch h)
    | ok g0 =>
      simp only [h2] at h
      exact sortGroups_pairwise dOf g0 g h

/-- Generic form of the amended C2: in every group of a successful
classification, records are pairwise descending by sort key, and hence
an absent-date record is never followed by a record whose present date
is strictly later than `datetime.min`. -/
theorem processWith_claimC2 (ex : Json → Py (Json × ρ))
    (dOf : ρ → Option PyDT) (data : Json) (g : Grouped ρ)
    (h : processWith ex dOf data = .ok g) (n : Nat) :
    (g.getD n (.null, [])).2.Pairwise (descByDate dOf) ∧
    (g.getD n (.null, [])).2.Pairwise (fun a b =>
      dOf a = none → ∀ d, dOf b = some d → utcVal d ≤ utcVal dtMin) := by
  by_cases hn : n < g.length
  · have hmem : g.getD n (.null, []) ∈ g := by
      rw [List.getD_eq_getElem g (.null, []) hn]
      exact List.getElem_mem hn
    have hp := processWith_pairwise ex dOf data g h _ hmem
    refine ⟨hp, hp.imp ?_⟩
    intro a b hab hnone d hsome
    unfold descByDate at hab
    rw [hnone, hsome] at hab
    simpa [dateKey] using hab
  · rw [List.getD_eq_default g (.null, []) (Nat.le_of_not_lt hn)]
    exact ⟨List.Pairwise.nil, List.Pairwise.nil⟩

/-- **C2 (amended).**  After sorting, each repository group is in
non-increasing order of sort key, where the key of an absent date is
`datetime.min` (0001-01-01 00:00:00): hence every absent-date record
appears after every record whose date is strictly later than
`datetime.min`, and present dates are in descending order.  (The
original claim fails only for a present date *equal* to `datetime.min`,
which ties with absent dates and is ordered by input position — see the
counterexample.) -/
theorem claim_C2_amended :
    (∀ data g, process_commits data = .ok g → ∀ n,
      (g.getD n (.null, [])).2.Pairwise (descByDate CommitRec.date) ∧
      (g.getD n (.null, [])).2.Pairwise (fun a b =>
        a.date = none → ∀ d, b.date = some d → utcVal d ≤ utcVal dtMin)) ∧
    (∀ data g, process_issues data = .ok g → ∀ n,
      (g.getD n (.null, [])).2.Pairwise (descByDate IssueRec.date) ∧
      (g.getD n (.null, [])).2.Pairwise (fun a b =>
        a.date = none → ∀ d, b.date = some d → utcVal d ≤ utcVal dtMin)) ∧
    (∀ data g, process_prs data = .ok g → ∀ n,
      (g.getD n (.null, [])).2.Pairwise (descByDate PrRec.date) ∧
      (g.getD n (.null, [])).2.Pairwise (fun a b =>
        a.date = none → ∀ d, b.date = some d → utcVal d ≤ utcVal dtMin)) :=
  ⟨fun data g h => processWith_claimC2 extractCommit CommitRec.date data g h,
   fun data g h => processWith_claimC2 extractIssue IssueRec.date data g h,
   fun data g h => processWith_claimC2 extractPr PrRec.date data g h⟩

/-- Witness for the amended C2 on a three-record group (two naive dates
and one absent date). -/
theorem claim_C2_amended_witness :
    (c2group.getD 0 (.null, [])).2.Pairwise (descByDate IssueRec.date) ∧
    (c2group.getD 0 (.null, [])).2.Pairwise (fun a b =>
      a.date = none → ∀ d, b.date = some d → utcVal d ≤ utcVal dtMin) :=
  claim_C2_amended.2.1 c2data c2group rfl 0

/-! ### Success of the classifiers on well-formed items (C1) -/

/-- `jget` on an object is total: the field's value or the default. -/
theorem jget_obj (fs : List (Str × Json)) (k : Str) (d : Json) :
    jget (.obj fs) k d = .ok ((jlookup fs k).getD d) := by
  cases h : jlookup fs k <;> simp [jget, h]

/-- `toKey` succeeds on non-containers. -/
theorem toKey_ok (v : Json) (h : isContainer v = false) :
    ∃ k, toKey v = .ok k := by
  cases v with
  | null => exact ⟨.null, rfl⟩
  | bool b => exact ⟨.bool b, rfl⟩
  | num n => exact ⟨.num n, rfl⟩
  | str s => exact ⟨.str s, rfl⟩
  | arr l => exact (nomatch h)
  | obj l => exact (nomatch h)

/-- `parse_date` succeeds on strings and falsy values. -/
theorem parse_date_ok (j : Json) (h : strOrFalsy j = true) :
    ∃ o, parse_date j = .ok o := by
  cases j with
  | str s =>
    by_cases ht : pyTruthy (.str s) = false
    · exact ⟨none, by unfold parse_date; rw [if_pos ht]⟩
    · exact ⟨fromiso (replaceZ s), by unfold parse_date; rw [if_neg ht]⟩
  | null => exact ⟨none, rfl⟩
  | bool b =>
    have hf : pyTruthy (.bool b) = false := by simpa [strOrFalsy] using h
    exact ⟨none, by unfold parse_date; rw [if_pos hf]⟩
  | num n =>
    have hf : pyTruthy (.num n) = false := by simpa [strOrFalsy] using h
    exact ⟨none, by unfold parse_date; rw [if_pos hf]⟩
  | arr l =>
    have hf : pyTruthy (.arr l) = false := by simpa [strOrFalsy] using h
    exact ⟨none, by unfold parse_date; rw [if_pos hf]⟩
  | obj l =>
    have hf : pyTruthy (.obj l) = false := by simpa [strOrFalsy] using h
    exact ⟨none, by unfold parse_date; rw [if_pos hf]⟩

/-- `get_first_line` succeeds on strings and falsy values. -/
theorem get_first_line_ok (j : Json) (h : strOrFalsy j = true) :
    ∃ s, get_first_line j = .ok s := by
  cases j with
  | str s =>
    by_cases ht : pyTruthy (.str s) = false
    · exact ⟨[], by unfold get_first_line; rw [if_pos ht]⟩
    · exact ⟨firstLineStr s, by unfold get_first_line; rw [if_neg ht]⟩
  | null => exact ⟨[], rfl⟩
  | bool b =>
    have hf : pyTruthy (.bool b) = false := by simpa [strOrFalsy] using h
    exact ⟨[], by unfold get_first_line; rw [if_pos hf]⟩
  | num n =>
    have hf : pyTruthy (.num n) = false := by simpa [strOrFalsy] using h
    exact ⟨[], by unfold get_first_line; rw [if_pos hf]⟩
  | arr l =>
    have hf : pyTruthy (.arr l) = false := by simpa [strOrFalsy] using h
    exact ⟨[], by unfold get_first_line; rw [if_pos hf]⟩
  | obj l =>
    have hf : pyTruthy (.obj l) = false := by simpa [strOrFalsy] using h
    exact ⟨[], by unfold get_first_line; rw [if_pos hf]⟩

/-- A well-formed commit item extracts successfully to a record under a
hashable repository key. -/
theorem extractCommit_ok (item : Json) (h : wfCommitItem item = true) :
    ∃ repo rec k, extractCommit item = .ok (repo, rec) ∧ toKey repo = .ok k := by
  cases item with
  | obj fields =>
    unfold wfCommitItem at h
    rw [Bool.and_eq_true] at h
    obtain ⟨hrep, hcom⟩ := h
    have hname : ∃ repo k,
        jget ((jlookup fields (chars "repository")).getD (.obj []))
          (chars "name") (.str (chars "unknown")) = .ok repo ∧
        toKey repo = .ok k := by
      cases hR : jlookup fields (chars "repository") with
      | none => exact ⟨.str (chars "unknown"), .str (chars "unknown"), rfl, rfl⟩
      | some rv =>
        rw [hR] at hrep
        cases rv with
        | obj rf =>
          have hrep' : (match jlookup rf (chars "name") with
              | none => true
              | some v => !isContainer v) = true := hrep
          simp only [Option.getD_some, jget_obj]
          cases hN : jlookup rf (chars "name") with
          | none => exact ⟨.str (chars "unknown"), .str (chars "unknown"), rfl, rfl⟩
          | some v =>
            rw [hN] at hrep'
            obtain ⟨k, hk⟩ := toKey_ok v (by simpa using hrep')
            exact ⟨v, k, rfl, hk⟩
        | null => exact (nomatch hrep)
        | bool b => exact (nomatch hrep)
        | num n => exact (nomatch hrep)
        | str s => exact (nomatch hrep)
        | arr l => exact (nomatch hrep)
    obtain ⟨repo, k, hrepo, hk⟩ := hname
    cases hC : jlookup fields (chars "commit") with
    | none =>
      refine ⟨repo, ⟨none, []⟩, k, ?_, hk⟩
      unfold extractCommit
      simp only [jget_obj, hC, hrepo, Option.getD_none, Option.getD_some, jlookup]
      rfl
    | some cv =>
      rw [hC] at hcom
      cases cv with
      | obj cf =>
        have hcom' : ((match jlookup cf (chars "author") with
            | none => true
            | some (.obj af) =>
              match jlookup af (chars "date") with
              | none => true
              | some d => strOrFalsy d
            | some _ => false) &&
            (match jlookup cf (chars "message") with
             | none => true
             | some m => strOrFalsy m)) = true := hcom
        rw [Bool.and_eq_true] at hcom'
        obtain ⟨hauth, hmsg⟩ := hcom'
        have hdj : ∃ dateJ,
            jget ((jlookup cf (chars "author")).getD (.obj []))
              (chars "date") .null = .ok dateJ ∧
            strOrFalsy dateJ = true := by
          cases hA : jlookup cf (chars "author") with
          | none => exact ⟨.null, rfl, rfl⟩
          | some av =>
            rw [hA] at hauth
            cases av with
            | obj af =>
              have hauth' : (match jlookup af (chars "date") with
                  | none => true
                  | some d => strOrFalsy d) = true := hauth
              simp only [Option.getD_some, jget_obj]
              cases hD : jlookup af (chars "date") with
              | none => exact ⟨.null, rfl, rfl⟩
              | some d =>
                rw [hD] at hauth'
                exact ⟨d, rfl, hauth'⟩
            | null => exact (nomatch hauth)
            | bool b => exact (nomatch hauth)
            | num n => exact (nomatch hauth)
            | str s => exact (nomatch hauth)
            | arr l => exact (nomatch hauth)
        obtain ⟨dateJ, hdje, hdsf⟩ := hdj
        obtain ⟨dv, hdv⟩ := parse_date_ok dateJ hdsf
        have hmj : ∃ msgJ,
            (jlookup cf (chars "message")).getD (.str []) = msgJ ∧
            strOrFalsy msgJ = true := by
          cases hM : jlookup cf (chars "message") with
          | none => exact ⟨.str [], rfl, rfl⟩
          | some m =>
            rw [hM] at hmsg
            exact ⟨m, rfl, hmsg⟩
        obtain ⟨msgJ, hmje, hmsf⟩ := hmj
        obtain ⟨mv, hmv⟩ := get_first_line_ok msgJ hmsf
        refine ⟨repo, ⟨dv, mv⟩, k, ?_, hk⟩
        unfold extractCommit
        simp only [jget_obj, hC, hrepo, Option.getD_some, hdje, hdv, hmje, hmv]
      | null => exact (nomatch hcom)
      | bool b => exact (nomatch hcom)
      | num n => exact (nomatch hcom)
      | str s => exact (nomatch hcom)
      | arr l => exact (nomatch hcom)
  | null => exact (nomatch h)
  | bool b => exact (nomatch h)
  | num n => exact (nomatch h)
  | str s => exact (nomatch h)
  | arr l => exact (nomatch h)

/-- A well-formed issue/PR item resolves to a hashable repository
identifier. -/
theorem issueRepo_ok (fields : List (Str × Json))
    (h : (match jlookup fields (chars "repository") with
          | none => true
          | some (.obj rf) => repoNameOk rf
          | some _ => false) = true) :
    ∃ repo k, issueRepo (.obj fields) = .ok repo ∧ toKey repo = .ok k := by
  unfold issueRepo
  simp only [jget_obj]
  cases hR : jlookup fields (chars "repository") with
  | none => exact ⟨.str (chars "unknown"), .str (chars "unknown"), rfl, rfl⟩
  | some rv =>
    rw [hR] at h
    cases rv with
    | obj rf =>
      have h' : repoNameOk rf = true := h
      unfold repoNameOk at h'
      simp only [Option.getD_some, jget_obj]
      cases hW : jlookup rf (chars "nameWithOwner") with
      | some v =>
        rw [hW] at h'
        obtain ⟨k, hk⟩ := toKey_ok v (by simpa using h')
        exact ⟨v, k, rfl, hk⟩
      | none =>
        rw [hW] at h'
        cases hN : jlookup rf (chars "name") with
        | none => exact ⟨.str (chars "unknown"), .str (chars "unknown"), rfl, rfl⟩
        | some v =>
          rw [hN] at h'
          obtain ⟨k, hk⟩ := toKey_ok v (by simpa using h')
          exact ⟨v, k, rfl, hk⟩
    | null => exact (nomatch h)
    | bool b => exact (nomatch h)
    | num n => exact (nomatch h)
    | str s => exact (nomatch h)
    | arr l => exact (nomatch h)

/-- A well-formed issue item extracts successfully to a record under a
hashable repository key. -/
theorem extractIssue_ok (item : Json) (h : wfIssueItem item = true) :
    ∃ repo rec k, extractIssue item = .ok (repo, rec) ∧ toKey repo = .ok k := by
  cases item with
  | obj fields =>
    unfold wfIssueItem at h
    rw [Bool.and_eq_true, Bool.and_eq_true] at h
    obtain ⟨⟨hrep, hdate⟩, hstate⟩ := h
    obtain ⟨repo, k, hrepoe, hk⟩ := issueRepo_ok fields hrep
    have hdj : ∃ dJ, (jlookup fields (chars "createdAt")).getD .null = dJ ∧
        strOrFalsy dJ = true := by
      cases hD : jlookup fields (chars "createdAt") with
      | none => exact ⟨.null, rfl, rfl⟩
      | some d =>
        rw [hD] at hdate
        exact ⟨d, rfl, hdate⟩
    obtain ⟨dJ, hdje, hdsf⟩ := hdj
    obtain ⟨dv, hdv⟩ := parse_date_ok dJ hdsf
    have hsj : ∃ st, pyLowerJ ((jlookup fields (chars "state")).getD (.str [])) =
        .ok st := by
      revert hstate
      cases jlookup fields (chars "state") with
      | none => exact fun _ => ⟨[], rfl⟩
      | some sv =>
        cases sv with
        | str s => exact fun _ => ⟨pyLowerStr s, rfl⟩
        | null => exact fun hstate => (nomatch hstate)
        | bool b => exact fun hstate => (nomatch hstate)
        | num n => exact fun hstate => (nomatch hstate)
        | arr l => exact fun hstate => (nomatch hstate)
        | obj l => exact fun hstate => (nomatch hstate)
    obtain ⟨st, hst⟩ := hsj
    refine ⟨repo, ⟨(jlookup fields (chars "title")).getD (.str []), st, dv,
      (jlookup fields (chars "url")).getD (.str []),
      (jlookup fields (chars "body")).getD (.str [])⟩, k, ?_, hk⟩
    unfold extractIssue
    simp only [jget_obj, hrepoe, hdje, hdv, hst]
  | null => exact (nomatch h)
  | bool b => exact (nomatch h)
  | num n => exact (nomatch h)
  | str s => exact (nomatch h)
  | arr l => exact (nomatch h)

/-- A well-formed PR item extracts successfully to a record under a
hashable repository key. -/
theorem extractPr_ok (item : Json) (h : wfIssueItem item = true) :
    ∃ repo rec k, extractPr item = .ok (repo, rec) ∧ toKey repo = .ok k := by
  cases item with
  | obj fields =>
    unfold wfIssueItem at h
    rw [Bool.and_eq_true, Bool.and_eq_true] at h
    obtain ⟨⟨hrep, hdate⟩, hstate⟩ := h
    obtain ⟨repo, k, hrepoe, hk⟩ := issueRepo_ok fields hrep
    have hdj : ∃ dJ, (jlookup fields (chars "createdAt")).getD .null = dJ ∧
        strOrFalsy dJ = true := by
      cases hD : jlookup fields (chars "createdAt") with
      | none => exact ⟨.null, rfl, rfl⟩
      | some d =>
        rw [hD] at hdate
        exact ⟨d, rfl, hdate⟩
    obtain ⟨dJ, hdje, hdsf⟩ := hdj
    obtain ⟨dv, hdv⟩ := parse_date_ok dJ hdsf
    have hsj : ∃ st, pyLowerJ ((jlookup fields (chars "state")).getD (.str [])) =
        .ok st := by
      revert hstate
      cases jlookup fields (chars "state") with
      | none => exact fun _ => ⟨[], rfl⟩
      | some sv =>
        cases sv with
        | str s => exact fun _ => ⟨pyLowerStr s, rfl⟩
        | null => exact fun hstate => (nomatch hstate)
        | bool b => exact fun hstate => (nomatch hstate)
        | num n => exact fun hstate => (nomatch hstate)
        | arr l => exact fun hstate => (nomatch hstate)
        | obj l => exact fun hstate => (nomatch hstate)
    obtain ⟨st, hst⟩ := hsj
    refine ⟨repo, ⟨(jlookup fields (chars "title")).getD (.str []), st, dv,
      (jlookup fields (chars "url")).getD (.str []),
      decide (st = chars "merged"),
      (jlookup fields (chars "body")).getD (.str [])⟩, k, ?_, hk⟩
    unfold extractPr
    simp only [jget_obj, hrepoe, hdje, hdv, hst]
  | null => exact (nomatch h)
  | bool b => exact (nomatch h)
  | num n => exact (nomatch h)
  | str s => exact (nomatch h)
  | arr l => exact (nomatch h)

/-- Grouping succeeds when every item extracts to a record under a
hashable key. -/
theorem groupFold_ok (ex : Json → Py (Json × ρ)) :
    ∀ (items : List Json),
      (∀ item ∈ items, ∃ repo rec k, ex item = .ok (repo, rec) ∧
        toKey repo = .ok k) →
      ∀ g, ∃ g', groupFold ex g items = .ok g' := by
  intro items
  induction items with
  | nil => exact fun _ g => ⟨g, rfl⟩
  | cons item items ih =>
    intro h g
    obtain ⟨repo, rec, k, hex, hk⟩ := h item (by simp)
    obtain ⟨g', hg'⟩ := ih (fun i hi => h i (by simp [hi])) (addAssoc k rec g)
    exact ⟨g', by simp only [groupFold, groupStep, hex, hk, hg']⟩

/-- Two datetimes of the same timezone class compare successfully. -/
theorem pyCompareDT_ok_of_class (x y : PyDT) (h : x.tz.isSome = y.tz.isSome) :
    ∃ o, pyCompareDT x y = .ok o := by
  unfold pyCompareDT
  cases hx : x.tz with
  | none =>
    cases hy : y.tz with
    | none => exact ⟨_, rfl⟩
    | some b => rw [hx, hy] at h; simp at h
  | some a =>
    cases hy : y.tz with
    | none => rw [hx, hy] at h; simp at h
    | some b => exact ⟨_, rfl⟩

/-- Per-group sorting succeeds when every group is timezone-uniform. -/
theorem sortGroups_ok (dOf : ρ → Option PyDT) :
    ∀ (g : Grouped ρ), uniformGroups dOf g = true →
      ∃ g', sortGroups dOf g = .ok g' := by
  intro g
  induction g with
  | nil => exact fun _ => ⟨[], rfl⟩
  | cons p t ih =>
    intro h
    obtain ⟨k, rs⟩ := p
    rw [uniformGroups, List.all_cons, Bool.and_eq_true] at h
    obtain ⟨h1, h2⟩ := h
    have hcmp : ∀ a ∈ rs, ∀ b ∈ rs, ∃ o, cmpByDate dOf a b = .ok o := by
      cases rs with
      | nil => intro a ha; exact absurd ha (List.not_mem_nil a)
      | cons r rest =>
        have hall : ∀ z ∈ rest, tzClassOf (dOf z) = tzClassOf (dOf r) := by
          simpa [uniformGroup] using h1
        have hclass : ∀ z ∈ r :: rest, tzClassOf (dOf z) = tzClassOf (dOf r) := by
          intro z hz
          rcases List.mem_cons.mp hz with hz | hz
          · rw [hz]
          · exact hall z hz
        intro a ha b hb
        unfold cmpByDate
        apply pyCompareDT_ok_of_class
        exact (hclass a ha).trans (hclass b hb).symm
    obtain ⟨rs', hrs⟩ := pySort_ok (cmpByDate dOf) (fun o => o = .gt) rs hcmp
    obtain ⟨t', ht⟩ := ih h2
    exact ⟨(k, rs') :: t', by simp only [sortGroups, hrs, ht]⟩

/-- A classifier succeeds on an array of extractable items whose
grouping is timezone-uniform. -/
theorem processWith_ok (ex : Json → Py (Json × ρ)) (dOf : ρ → Option PyDT)
    (items : List Json)
    (hex : ∀ item ∈ items, ∃ repo rec k, ex item = .ok (repo, rec) ∧
      toKey repo = .ok k)
    (huni : ∀ g0, groupFold ex [] items = .ok g0 →
      uniformGroups dOf g0 = true) :
    ∃ g, processWith ex dOf (.arr items) = .ok g := by
  obtain ⟨g0, hg0⟩ := groupFold_ok ex items hex []
  obtain ⟨g, hg⟩ := sortGroups_ok dOf g0 (huni g0 hg0)
  exact ⟨g, by unfold processWith; simp only [pyIter, hg0, hg]⟩

/-- **C1 (amended).**  The classifiers complete without raising provided
(i) every raw item is a JSON object whose `repository`/`commit`/`author`
sub-fields, when present, are objects, whose resolved repository
identifier is hashable, whose date and commit-message fields, when
present, are strings or falsy, and whose `state` field, when present, is
a string (absent fields and unparseable date strings are always absorbed
by defaults); and (ii) within each repository group the parsed dates are
timezone-uniform, so the sort keys are mutually comparable.  The original
claim fails without these shape conditions: a present-but-`null`
sub-object raises `AttributeError` (see the counterexample), and mixing
an offset-aware date with a missing date in one group raises `TypeError`
inside `list.sort`. -/
theorem claim_C1_amended :
    (∀ items, (∀ item ∈ items, wfCommitItem item = true) →
      (∀ g0, groupFold extractCommit [] items = .ok g0 →
        uniformGroups CommitRec.date g0 = true) →
      ∃ g, process_commits (.arr items) = .ok g) ∧
    (∀ items, (∀ item ∈ items, wfIssueItem item = true) →
      (∀ g0, groupFold extractIssue [] items = .ok g0 →
        uniformGroups IssueRec.date g0 = true) →
      ∃ g, process_issues (.arr items) = .ok g) ∧
    (∀ items, (∀ item ∈ items, wfIssueItem item = true) →
      (∀ g0, groupFold extractPr [] items = .ok g0 →
        uniformGroups PrRec.date g0 = true) →
      ∃ g, process_prs (.arr items) = .ok g) :=
  ⟨fun items hwf huni => processWith_ok extractCommit CommitRec.date items
      (fun item hi => extractCommit_ok item (hwf item hi)) huni,
   fun items hwf huni => processWith_ok extractIssue IssueRec.date items
      (fun item hi => extractIssue_ok item (hwf item hi)) huni,
   fun items hwf huni => processWith_ok extractPr PrRec.date items
      (fun item hi => extractPr_ok item (hwf item hi)) huni⟩

/-- Witness for the amended C1 on three concrete well-formed inputs. -/
theorem claim_C1_amended_witness :
    (∃ g, process_commits (.arr [commitItemA]) = .ok g) ∧
    (∃ g, process_issues (.arr [itemMinDate]) = .ok g) ∧
    (∃ g, process_prs (.arr [itemDatedPr]) = .ok g) := by
  refine ⟨claim_C1_amended.1 [commitItemA] (by decide) ?_,
          claim_C1_amended.2.1 [itemMinDate] (by decide) ?_,
          claim_C1_amended.2.2 [itemDatedPr] (by decide) ?_⟩
  · intro g0 hg0
    rw [show groupFold extractCommit [] [commitItemA] =
        .ok (okOr (groupFold extractCommit [] [commitItemA]) []) from rfl] at hg0
    injection hg0 with hh
    rw [← hh]
    decide
  · intro g0 hg0
    rw [show groupFold extractIssue [] [itemMinDate] =
        .ok (okOr (groupFold extractIssue [] [itemMinDate]) []) from rfl] at hg0
    injection hg0 with hh
    rw [← hh]
    decide
  · intro g0 hg0
    rw [show groupFold extractPr [] [itemDatedPr] =
        .ok (okOr (groupFold extractPr [] [itemDatedPr]) []) from rfl] at hg0
    injection hg0 with hh
    rw [← hh]
    decide

/-- **C6 (amended).**  The loader returns `[]` — without raising — when
the file is missing or its text fails to parse as JSON (which includes
the empty file); an I/O error other than non-existence (e.g. an
unreadable file's `PermissionError`) propagates to the caller; and
parsed content is returned as-is when truthy but replaced by `[]` when
falsy (`data if data else []`). -/
theorem claim_C6_amended :
    load_json .fileNotFound = .ok (.arr []) ∧
    load_json .badJson = .ok (.arr []) ∧
    (∀ m, load_json (.ioError m) = .error m) ∧
    (∀ j, pyTruthy j = true → load_json (.jsonValue j) = .ok j) ∧
    (∀ j, pyTruthy j = false → load_json (.jsonValue j) = .ok (.arr [])) := by
  refine ⟨rfl, rfl, fun m => rfl, fun j hj => ?_, fun j hj => ?_⟩
  · simp [load_json, hj]
  · simp [load_json, hj]

/-- Witness for the amended C6 at concrete outcomes. -/
theorem claim_C6_amended_witness :
    load_json (.ioError "OSError") = .error "OSError" ∧
    load_json (.jsonValue (.arr [.num 1])) = .ok (.arr [.num 1]) ∧
    load_json (.jsonValue .null) = .ok (.arr []) :=
  ⟨claim_C6_amended.2.2.1 "OSError",
   claim_C6_amended.2.2.2.1 (.arr [.num 1]) rfl,
   claim_C6_amended.2.2.2.2 .null rfl⟩

/-- **C9 (amended).**  For an issue-created or PR-created record with a
string body: with body inclusion enabled and the body not
whitespace-only, the list line is immediately followed by the body
rendered one line per line of the *whole-body-stripped* text (leading
and trailing whitespace of the body as a whole is removed — not merely
blank lines), each prefixed with `"  > "`; with inclusion disabled or a
whitespace-only body, no body lines appear. -/
theorem claim_C9_amended :
    (∀ (r : IssueRec) (b : Str), r.body = .str b →
      (pyStrip b ≠ [] →
        issueCreatedLines true r = .ok (issueLine r ::
          ((pyStrip b).splitOn '\n').map (fun line => chars "  > " ++ line))) ∧
      (pyStrip b = [] → issueCreatedLines true r = .ok [issueLine r]) ∧
      issueCreatedLines false r = .ok [issueLine r]) ∧
    (∀ (r : PrRec) (b : Str), r.body = .str b →
      (pyStrip b ≠ [] →
        prCreatedLines true r = .ok (prLine r ::
          ((pyStrip b).splitOn '\n').map (fun line => chars "  > " ++ line))) ∧
      (pyStrip b = [] → prCreatedLines true r = .ok [prLine r]) ∧
      prCreatedLines false r = .ok [prLine r]) := by
  constructor
  · intro r b hb
    refine ⟨fun hne => ?_, fun heq => ?_, rfl⟩
    · have hb0 : b ≠ [] := fun h0 => hne (by rw [h0]; rfl)
      have h1 : pyTruthy (.str b) = true := by
        simp [pyTruthy, List.isEmpty_iff, hb0]
      simp [issueCreatedLines, hb, format_body, h1, List.isEmpty_iff, hne]
    · by_cases h1 : pyTruthy (.str b) = false
      · simp [issueCreatedLines, hb, format_body, h1]
      · simp [issueCreatedLines, hb, format_body, h1, heq]
  · intro r b hb
    refine ⟨fun hne => ?_, fun heq => ?_, rfl⟩
    · have hb0 : b ≠ [] := fun h0 => hne (by rw [h0]; rfl)
      have h1 : pyTruthy (.str b) = true := by
        simp [pyTruthy, List.isEmpty_iff, hb0]
      simp [prCreatedLines, hb, format_body, h1, List.isEmpty_iff, hne]
    · by_cases h1 : pyTruthy (.str b) = false
      · simp [prCreatedLines, hb, format_body, h1]
      · simp [prCreatedLines, hb, format_body, h1, heq]

/-- Witness for the amended C9: the two-line body of the spec's own
scenario renders as two `"  > "` lines immediately after the list line
when enabled, and not at all when disabled. -/
theorem claim_C9_amended_witness :
    issueCreatedLines true issueRecB = .ok (issueLine issueRecB ::
      ((pyStrip (chars "line1\nline2")).splitOn '\n').map
        (fun line => chars "  > " ++ line)) ∧
    issueCreatedLines false issueRecB = .ok [issueLine issueRecB] :=
  ⟨((claim_C9_amended.1 issueRecB (chars "line1\nline2") rfl).1 (by decide)),
   (claim_C9_amended.1 issueRecB (chars "line1\nline2") rfl).2.2⟩

/-! ### The period line (C5) -/

/-- `cmpInt` is `.lt` exactly for a strictly smaller left operand. -/
theorem cmpInt_lt_iff (a b : Int) : cmpInt a b = .lt ↔ a < b := by
  unfold cmpInt
  split_ifs with h1 h2 <;> simp <;> omega

/-- The `min` fold returns a minimum of the current value and the rest. -/
theorem pyFoldMin_spec : ∀ (ds : List PyDT) (cur m : PyDT),
    pyFoldMin cur ds = .ok m →
    (m = cur ∨ m ∈ ds) ∧ utcVal m ≤ utcVal cur ∧
      ∀ d ∈ ds, utcVal m ≤ utcVal d := by
  intro ds
  induction ds with
  | nil =>
    intro cur m h
    simp only [pyFoldMin] at h
    injection h with h
    subst h
    exact ⟨Or.inl rfl, le_refl _, fun d hd => absurd hd (List.not_mem_nil d)⟩
  | cons d ds ih =>
    intro cur m h
    simp only [pyFoldMin] at h
    cases hc : pyCompareDT d cur with
    | error e => simp only [hc] at h; exact (nomatch h)
    | ok o =>
      simp only [hc] at h
      have hval := pyCompareDT_ok_val _ _ _ hc
      by_cases ho : o = .lt
      · rw [if_pos ho] at h
        obtain ⟨hm, hle, hall⟩ := ih d m h
        have hdc : utcVal d < utcVal cur :=
          (cmpInt_lt_iff _ _).mp (hval.symm.trans ho)
        refine ⟨?_, le_trans hle (le_of_lt hdc), ?_⟩
        · rcases hm with hm | hm
          · exact Or.inr (by simp [hm])
          · exact Or.inr (by simp [hm])
        · intro x hx
          rcases List.mem_cons.mp hx with hx | hx
          · rw [hx]; exact hle
          · exact hall x hx
      · rw [if_neg ho] at h
        obtain ⟨hm, hle, hall⟩ := ih cur m h
        have hcd : utcVal cur ≤ utcVal d := by
          rw [hval] at ho
          exact le_of_not_lt ((not_iff_not.mpr (cmpInt_lt_iff _ _)).mp ho)
        refine ⟨?_, hle, ?_⟩
        · rcases hm with hm | hm
          · exact Or.inl hm
          · exact Or.inr (List.mem_cons_of_mem d hm)
        · intro x hx
          rcases List.mem_cons.mp hx with hx | hx
          · rw [hx]; exact le_trans hle hcd
          · exact hall x hx

/-- The `max` fold returns a maximum of the current value and the rest. -/
theorem pyFoldMax_spec : ∀ (ds : List PyDT) (cur m : PyDT),
    pyFoldMax cur ds = .ok m →
    (m = cur ∨ m ∈ ds) ∧ utcVal cur ≤ utcVal m ∧
      ∀ d ∈ ds, utcVal d ≤ utcVal m := by
  intro ds
  induction ds with
  | nil =>
    intro cur m h
    simp only [pyFoldMax] at h
    injection h with h
    subst h
    exact ⟨Or.inl rfl, le_refl _, fun d hd => absurd hd (List.not_mem_nil d)⟩
  | cons d ds ih =>
    intro cur m h
    simp only [pyFoldMax] at h
    cases hc : pyCompareDT d cur with
    | error e => simp only [hc] at h; exact (nomatch h)
    | ok o =>
      simp only [hc] at h
      have hval := pyCompareDT_ok_val _ _ _ hc
      by_cases ho : o = .gt
      · rw [if_pos ho] at h
        obtain ⟨hm, hle, hall⟩ := ih d m h
        have hdc : utcVal cur < utcVal d :=
          (cmpInt_gt_iff _ _).mp (hval.symm.trans ho)
        refine ⟨?_, le_trans (le_of_lt hdc) hle, ?_⟩
        · rcases hm with hm | hm
          · exact Or.inr (by simp [hm])
          · exact Or.inr (by simp [hm])
        · intro x hx
          rcases List.mem_cons.mp hx with hx | hx
          · rw [hx]; exact hle
          · exact hall x hx
      · rw [if_neg ho] at h
        obtain ⟨hm, hle, hall⟩ := ih cur m h
        have hcd : utcVal d ≤ utcVal cur := by
          rw [hval] at ho
          exact le_of_not_lt ((not_iff_not.mpr (cmpInt_gt_iff _ _)).mp ho)
        refine ⟨?_, hle, ?_⟩
        · rcases hm with hm | hm
          · exact Or.inl hm
          · exact Or.inr (List.mem_cons_of_mem d hm)
        · intro x hx
          rcases List.mem_cons.mp hx with hx | hx
          · rw [hx]; exact le_trans hcd hle
          · exact hall x hx

/-- `min(all_dates)` is a member and a lower bound. -/
theorem pyMinD_spec (ds : List PyDT) (m : PyDT) (h : pyMinD ds = .ok m) :
    m ∈ ds ∧ ∀ d ∈ ds, utcVal m ≤ utcVal d := by
  cases ds with
  | nil => exact (nomatch h)
  | cons d t =>
    obtain ⟨hm, hle, hall⟩ := pyFoldMin_spec t d m h
    refine ⟨?_, ?_⟩
    · rcases hm with hm | hm
      · exact hm ▸ List.mem_cons_self d t
      · exact List.mem_cons_of_mem d hm
    · intro x hx
      rcases List.mem_cons.mp hx with hx | hx
      · rw [hx]; exact hle
      · exact hall x hx

/-- `max(all_dates)` is a member and an upper bound. -/
theorem pyMaxD_spec (ds : List PyDT) (m : PyDT) (h : pyMaxD ds = .ok m) :
    m ∈ ds ∧ ∀ d ∈ ds, utcVal d ≤ utcVal m := by
  cases ds with
  | nil => exact (nomatch h)
  | cons d t =>
    obtain ⟨hm, hle, hall⟩ := pyFoldMax_spec t d m h
    refine ⟨?_, ?_⟩
    · rcases hm with hm | hm
      · exact hm ▸ List.mem_cons_self d t
      · exact List.mem_cons_of_mem d hm
    · intro x hx
      rcases List.mem_cons.mp hx with hx | hx
      · rw [hx]; exact hle
      · exact hall x hx

/-- A successful render's line 1 is `period: ` followed by the value the
period computation produced from commit and issues-created dates only. -/
theorem generate_markdown_period (commits : Grouped CommitRec)
    (ic icc : Grouped IssueRec) (pc pr : Grouped PrRec)
    (dirName : Str) (ib : Bool) (doc : List Str)
    (h : generate_markdown commits ic icc pc pr dirName ib = .ok doc) :
    ∃ p, periodOf (datesC commits ++ datesI ic) = .ok p ∧
      doc.getD 1 [] = chars "period: " ++ p := by
  unfold generate_markdown at h
  cases hp : periodOf (datesC commits ++ datesI ic) with
  | error e => simp only [hp] at h; exact (nomatch h)
  | ok p =>
    simp only [hp] at h
    cases h1 : renderSection (chars "## Commits (" ++ natStr (countRecs commits)
        ++ chars ")") commits commitItemLines with
    | error e => simp only [h1] at h; exact (nomatch h)
    | ok s1 =>
      simp only [h1] at h
      cases h2 : renderSection (chars "## Issues Created ("
          ++ natStr (countRecs ic) ++ chars ")") ic (issueCreatedLines ib) with
      | error e => simp only [h2] at h; exact (nomatch h)
      | ok s2 =>
        simp only [h2] at h
        cases h3 : renderSection (chars "## Issues Commented ("
            ++ natStr (countRecs icc) ++ chars ")") icc issueCommentedLines with
        | error e => simp only [h3] at h; exact (nomatch h)
        | ok s3 =>
          simp only [h3] at h
          cases h4 : renderSection (chars "## PRs Created ("
              ++ natStr (countRecs pc) ++ chars ")") pc (prCreatedLines ib) with
          | error e => simp only [h4] at h; exact (nomatch h)
          | ok s4 =>
            simp only [h4] at h
            cases h5 : renderSection (chars "## PRs Reviewed ("
                ++ natStr (countRecs pr) ++ chars ")") pr prReviewedLines with
            | error e => simp only [h5] at h; exact (nomatch h)
            | ok s5 =>
              simp only [h5] at h
              injection h with h
              subst h
              exact ⟨p, rfl, by simp [List.getD]⟩

/-- `%Y` renders at least four characters. -/
theorem pad4_min_length (n : Nat) : 4 ≤ (pad4 n).length := by
  simp [pad4, List.length_append, List.length_replicate]
  omega

/-- `%Y-%m-%d` renders at least six characters (so never `unknown`). -/
theorem fmtYMD_min_length (t : PyDT) : 6 ≤ (fmtYMD t).length := by
  have h4 := pad4_min_length t.year
  simp [fmtYMD, List.length_append]
  omega

/-- **C5 (amended).**  In every successfully rendered document, line 1
(the period line) is `period: <earliest> to <latest>` in `YYYY-MM-DD`
form, where earliest and latest are a member lower bound and a member
upper bound of the present dates of commit and issues-created records
only (PR and issues-commented dates are excluded); and it is the literal
`period: unknown` exactly when no dated commit or issues-created record
exists — not, as the claim said, when no dated record exists anywhere
(see the counterexample with a dated PR record). -/
theorem claim_C5_amended (commits : Grouped CommitRec)
    (ic icc : Grouped IssueRec) (pc pr : Grouped PrRec)
    (dirName : Str) (ib : Bool) (doc : List Str)
    (h : generate_markdown commits ic icc pc pr dirName ib = .ok doc) :
    (datesC commits ++ datesI ic = [] →
      doc.getD 1 [] = chars "period: unknown") ∧
    (∀ mn mx, pyMinD (datesC commits ++ datesI ic) = .ok mn →
        pyMaxD (datesC commits ++ datesI ic) = .ok mx →
      doc.getD 1 [] =
        chars "period: " ++ (fmtYMD mn ++ chars " to " ++ fmtYMD mx) ∧
      mn ∈ datesC commits ++ datesI ic ∧
      mx ∈ datesC commits ++ datesI ic ∧
      (∀ d ∈ datesC commits ++ datesI ic, utcVal mn ≤ utcVal d) ∧
      (∀ d ∈ datesC commits ++ datesI ic, utcVal d ≤ utcVal mx)) ∧
    (doc.getD 1 [] = chars "period: unknown" ↔
      datesC commits ++ datesI ic = []) := by
  obtain ⟨p, hp, hline⟩ :=
    generate_markdown_period commits ic icc pc pr dirName ib doc h
  unfold periodOf at hp
  by_cases hds : (datesC commits ++ datesI ic).isEmpty = true
  · rw [if_pos hds] at hp
    injection hp with hp
    have hdnil : datesC commits ++ datesI ic = [] := List.isEmpty_iff.mp hds
    subst hp
    refine ⟨fun _ => hline, fun mn mx hmn _ => ?_, fun _ => hdnil, fun _ => hline⟩
    rw [hdnil] at hmn
    exact (nomatch hmn)
  · rw [if_neg hds] at hp
    have hdne : datesC commits ++ datesI ic ≠ [] := by
      intro h0
      exact hds (by rw [h0]; rfl)
    cases hmn : pyMinD (datesC commits ++ datesI ic) with
    | error e => simp only [hmn] at hp; exact (nomatch hp)
    | ok mn0 =>
      simp only [hmn] at hp
      cases hmx : pyMaxD (datesC commits ++ datesI ic) with
      | error e => simp only [hmx] at hp; exact (nomatch hp)
      | ok mx0 =>
        simp only [hmx] at hp
        injection hp with hp
        subst hp
        refine ⟨fun h0 => absurd h0 hdne, fun mn mx hmn' hmx' => ?_, ?_, ?_⟩
        · have e1 : mn = mn0 := (Except.ok.inj hmn').symm
          have e2 : mx = mx0 := (Except.ok.inj hmx').symm
          subst e1
          subst e2
          obtain ⟨hmem1, hlb⟩ := pyMinD_spec _ _ hmn
          obtain ⟨hmem2, hub⟩ := pyMaxD_spec _ _ hmx
          exact ⟨hline, hmem1, hmem2, hlb, hub⟩
        · intro h0
          have hx := List.append_cancel_left
            ((hline.symm.trans h0).trans
              (show chars "period: unknown" =
                chars "period: " ++ chars "unknown" from rfl))
          have hlen := congrArg List.length hx
          rw [List.length_append, List.length_append] at hlen
          have l1 := fmtYMD_min_length mn0
          have l2 := fmtYMD_min_length mx0
          have l3 : (chars " to ").length = 4 := rfl
          have l4 : (chars "unknown").length = 7 := rfl
          rw [l3, l4] at hlen
          omega
        · intro h0
          exact absurd h0 hdne

/-- Witness for the amended C5 on one dated commit: the period line
shows that date twice and the date is among the collected commit
dates. -/
theorem claim_C5_amended_witness :
    c5doc.getD 1 [] =
      chars "period: " ++ (fmtYMD dtA ++ chars " to " ++ fmtYMD dtA) ∧
    dtA ∈ datesC c5commits ++ datesI [] := by
  have h := claim_C5_amended c5commits [] [] [] [] (chars "d") false c5doc rfl
  exact ⟨(h.2.1 dtA dtA rfl rfl).1, (h.2.1 dtA dtA rfl rfl).2.1⟩

/-! ### The key order used by `sorted()` (C8) -/

/-- `cmpInt` is `.eq` exactly on equal operands. -/
theorem cmpInt_eq_iff (a b : Int) : cmpInt a b = .eq ↔ a = b := by
  unfold cmpInt
  split_ifs with h1 h2 <;> simp <;> omega

/-- Swapping the operands swaps the verdict. -/
theorem cmpInt_swap (a b : Int) : cmpInt b a = (cmpInt a b).swap := by
  unfold cmpInt
  split_ifs with h1 h2 h3 h4 <;> simp [Ordering.swap] <;> omega

/-- String comparison is `.eq` exactly on equal strings. -/
theorem strLexCmp_eq_iff : ∀ (s t : Str), strLexCmp s t = .eq ↔ s = t := by
  intro s
  induction s with
  | nil =>
    intro t
    cases t <;> simp [strLexCmp]
  | cons a as ih =>
    intro t
    cases t with
    | nil => simp [strLexCmp]
    | cons b bs =>
      simp only [strLexCmp]
      cases hab : cmpInt a.toNat b.toNat with
      | lt =>
        have : ¬(a.toNat : Int) = b.toNat := by
          have := (cmpInt_lt_iff _ _).mp hab
          omega
        constructor
        · intro h; exact absurd h (by simp)
        · intro h
          injection h with h1 h2
          exact absurd (by rw [h1]) this
      | gt =>
        have : ¬(a.toNat : Int) = b.toNat := by
          have := (cmpInt_gt_iff _ _).mp hab
          omega
        constructor
        · intro h; exact absurd h (by simp)
        · intro h
          injection h with h1 h2
          exact absurd (by rw [h1]) this
      | eq =>
        have hab' : a = b := by
          have h0 := (cmpInt_eq_iff _ _).mp hab
          have h1 : a.toNat = b.toNat := by exact_mod_cast h0
          exact Char.ext (UInt32.ext h1)
        rw [ih bs]
        subst hab'
        simp

/-- Swapping the operands swaps a string comparison. -/
theorem strLexCmp_swap : ∀ (s t : Str), strLexCmp t s = (strLexCmp s t).swap := by
  intro s
  induction s with
  | nil =>
    intro t
    cases t <;> simp [strLexCmp, Ordering.swap]
  | cons a as ih =>
    intro t
    cases t with
    | nil => simp [strLexCmp, Ordering.swap]
    | cons b bs =>
      simp only [strLexCmp]
      rw [cmpInt_swap]
      cases cmpInt a.toNat b.toNat with
      | lt => simp [Ordering.swap]
      | gt => simp [Ordering.swap]
      | eq => simpa [Ordering.swap] using ih bs

/-- The non-strict string order is transitive. -/
theorem strLexCmp_le_trans : ∀ (s t u : Str),
    strLexCmp s t ≠ .gt → strLexCmp t u ≠ .gt → strLexCmp s u ≠ .gt := by
  intro s
  induction s with
  | nil =>
    intro t u _ _
    cases u <;> simp [strLexCmp]
  | cons a as ih =>
    intro t u h1 h2
    cases t with
    | nil => simp [strLexCmp] at h1
    | cons b bs =>
      cases u with
      | nil => simp [strLexCmp] at h2
      | cons c cs =>
        simp only [strLexCmp] at h1 h2 ⊢
        cases hab : cmpInt a.toNat b.toNat with
        | gt => rw [hab] at h1; exact absurd rfl h1
        | lt =>
          have hab' := (cmpInt_lt_iff _ _).mp hab
          cases hbc : cmpInt b.toNat c.toNat with
          | gt => rw [hbc] at h2; exact absurd rfl h2
          | lt =>
            have hbc' := (cmpInt_lt_iff _ _).mp hbc
            rw [(cmpInt_lt_iff (a.toNat : Int) (c.toNat : Int)).mpr (by omega)]
            simp
          | eq =>
            have hbc' := (cmpInt_eq_iff _ _).mp hbc
            rw [(cmpInt_lt_iff (a.toNat : Int) (c.toNat : Int)).mpr (by omega)]
            simp
        | eq =>
          rw [hab] at h1
          have hab' := (cmpInt_eq_iff _ _).mp hab
          cases hbc : cmpInt b.toNat c.toNat with
          | gt => rw [hbc] at h2; exact absurd rfl h2
          | lt =>
            have hbc' := (cmpInt_lt_iff _ _).mp hbc
            rw [(cmpInt_lt_iff (a.toNat : Int) (c.toNat : Int)).mpr (by omega)]
            simp
          | eq =>
            have hbc' := (cmpInt_eq_iff _ _).mp hbc
            rw [(cmpInt_eq_iff (a.toNat : Int) (c.toNat : Int)).mpr (by omega)]
            rw [hbc] at h2
            exact ih bs cs h1 h2

/-- Successful key comparisons happen between two strings or two
numeric values (`bool` counting as its integer value). -/
theorem keyCmp_cases (a b : PyKey) (o : Ordering) (h : keyCmp a b = .ok o) :
    (∃ s t, a = .str s ∧ b = .str t ∧ o = strLexCmp s t) ∨
    (∃ x y, keyNum a = some x ∧ keyNum b = some y ∧ o = cmpInt x y) := by
  cases a with
  | str s =>
    cases b with
    | str t => exact Or.inl ⟨s, t, rfl, rfl, (Except.ok.inj h).symm⟩
    | null => exact (nomatch h)
    | bool c => exact (nomatch h)
    | num n => exact (nomatch h)
  | num n =>
    cases b with
    | str t => exact (nomatch h)
    | null => exact (nomatch h)
    | num m => exact Or.inr ⟨n, m, rfl, rfl, (Except.ok.inj h).symm⟩
    | bool c => exact Or.inr ⟨n, if c then 1 else 0, rfl, rfl, (Except.ok.inj h).symm⟩
  | bool c =>
    cases b with
    | str t => exact (nomatch h)
    | null => exact (nomatch h)
    | num m => exact Or.inr ⟨if c then 1 else 0, m, rfl, rfl, (Except.ok.inj h).symm⟩
    | bool d =>
      exact Or.inr ⟨if c then 1 else 0, if d then 1 else 0, rfl, rfl,
        (Except.ok.inj h).symm⟩
  | null =>
    cases b with
    | str t => exact (nomatch h)
    | null => exact (nomatch h)
    | num m => exact (nomatch h)
    | bool d => exact (nomatch h)

/-- Two numeric keys compare by their numeric values. -/
theorem keyCmp_of_num (a b : PyKey) (x y : Int)
    (hx : keyNum a = some x) (hy : keyNum b = some y) :
    keyCmp a b = .ok (cmpInt x y) := by
  cases a with
  | str s => exact (nomatch hx)
  | null => exact (nomatch hx)
  | num n =>
    injection hx with hx
    cases b with
    | str t => exact (nomatch hy)
    | null => exact (nomatch hy)
    | num m =>
      injection hy with hy
      rw [← hx, ← hy]
      rfl
    | bool d =>
      injection hy with hy
      rw [← hx, ← hy]
      rfl
  | bool c =>
    injection hx with hx
    cases b with
    | str t => exact (nomatch hy)
    | null => exact (nomatch hy)
    | num m =>
      injection hy with hy
      rw [← hx, ← hy]
      rfl
    | bool d =>
      injection hy with hy
      rw [← hx, ← hy]
      rfl

/-- A string key has no numeric value. -/
theorem keyNum_str (s : Str) : keyNum (.str s) = none := rfl

/-- `keyLe` is transitive. -/
theorem keyLe_trans (a b c : PyKey) (h1 : keyLe a b) (h2 : keyLe b c) :
    keyLe a c := by
  have hab : ∃ o1, keyCmp a b = .ok o1 ∧ o1 ≠ .gt := by
    rcases h1 with h1 | h1
    · exact ⟨.lt, h1, by simp⟩
    · exact ⟨.eq, h1, by simp⟩
  have hbc : ∃ o2, keyCmp b c = .ok o2 ∧ o2 ≠ .gt := by
    rcases h2 with h2 | h2
    · exact ⟨.lt, h2, by simp⟩
    · exact ⟨.eq, h2, by simp⟩
  obtain ⟨o1, hc1, hn1⟩ := hab
  obtain ⟨o2, hc2, hn2⟩ := hbc
  rcases keyCmp_cases a b o1 hc1 with ⟨s, t, ha, hb, ho1⟩ | ⟨x, y, hx, hy, ho1⟩
  · rcases keyCmp_cases b c o2 hc2 with ⟨t', u, hb', hc, ho2⟩ | ⟨y', z, hy', _, _⟩
    · have htt : t = t' := by
        rw [hb] at hb'
        injection hb'
      subst htt
      subst ha
      subst hb
      subst hc
      have h3 := strLexCmp_le_trans s t u (ho1 ▸ hn1) (ho2 ▸ hn2)
      cases hsu : strLexCmp s u with
      | lt => exact Or.inl (by rw [show keyCmp (PyKey.str s) (.str u) =
          .ok (strLexCmp s u) from rfl, hsu])
      | eq => exact Or.inr (by rw [show keyCmp (PyKey.str s) (.str u) =
          .ok (strLexCmp s u) from rfl, hsu])
      | gt => exact absurd hsu h3
    · rw [hb] at hy'
      exact (nomatch hy')
  · rcases keyCmp_cases b c o2 hc2 with ⟨t', u, hb', _, _⟩ | ⟨y', z, hy', hz, ho2⟩
    · rw [hb'] at hy
      exact (nomatch hy)
    · have hyy : y = y' := by
        rw [hy] at hy'
        injection hy'
      subst hyy
      have hxy : x ≤ y := by
        have hg : cmpInt x y ≠ .gt := ho1 ▸ hn1
        have := (not_iff_not.mpr (cmpInt_gt_iff x y)).mp hg
        omega
      have hyz : y ≤ z := by
        have hg : cmpInt y z ≠ .gt := ho2 ▸ hn2
        have := (not_iff_not.mpr (cmpInt_gt_iff y z)).mp hg
        omega
      have hkc := keyCmp_of_num a c x z hx hz
      cases hxz : cmpInt x z with
      | lt => exact Or.inl (by rw [hkc, hxz])
      | eq => exact Or.inr (by rw [hkc, hxz])
      | gt =>
        have := (cmpInt_gt_iff x z).mp hxz
        omega

/-- From a successful non-`lt` comparison, the right key is no greater
than the left. -/
theorem keyLe_of_cmp_not_lt (a b : PyKey) (o : Ordering)
    (h : keyCmp a b = .ok o) (ho : o ≠ .lt) : keyLe b a := by
  rcases keyCmp_cases a b o h with ⟨s, t, ha, hb, ho1⟩ | ⟨x, y, hx, hy, ho1⟩
  · subst ha
    subst hb
    have hswap : strLexCmp t s = (strLexCmp s t).swap := strLexCmp_swap s t
    cases hst : strLexCmp s t with
    | lt => exact absurd (ho1.trans hst) ho
    | eq =>
      refine Or.inr ?_
      rw [show keyCmp (PyKey.str t) (.str s) = .ok (strLexCmp t s) from rfl,
        hswap, hst]
      rfl
    | gt =>
      refine Or.inl ?_
      rw [show keyCmp (PyKey.str t) (.str s) = .ok (strLexCmp t s) from rfl,
        hswap, hst]
      rfl
  · have hle : y ≤ x := by
      have hg : cmpInt x y ≠ .lt := ho1 ▸ ho
      have := (not_iff_not.mpr (cmpInt_lt_iff x y)).mp hg
      omega
    have hkc := keyCmp_of_num b a y x hy hx
    cases hyx : cmpInt y x with
    | lt => exact Or.inl (by rw [hkc, hyx])
    | eq => exact Or.inr (by rw [hkc, hyx])
    | gt =>
      have := (cmpInt_gt_iff y x).mp hyx
      omega

/-- Antisymmetry of `keyLe` on string keys. -/
theorem keyLe_antisymm_str (s t : Str)
    (h1 : keyLe (.str s) (.str t)) (h2 : keyLe (.str t) (.str s)) :
    PyKey.str s = .str t := by
  have hs1 : strLexCmp s t = .lt ∨ strLexCmp s t = .eq := by
    rcases h1 with h1 | h1
    · exact Or.inl (Except.ok.inj h1)
    · exact Or.inr (Except.ok.inj h1)
  have hs2 : strLexCmp t s = .lt ∨ strLexCmp t s = .eq := by
    rcases h2 with h2 | h2
    · exact Or.inl (Except.ok.inj h2)
    · exact Or.inr (Except.ok.inj h2)
  rw [strLexCmp_swap s t] at hs2
  rcases hs1 with hs1 | hs1
  · rw [hs1] at hs2
    rcases hs2 with hs2 | hs2 <;> exact (nomatch hs2)
  · rw [(strLexCmp_eq_iff s t).mp hs1]

/-- `sorted(keys)` is sorted for `keyLe`. -/
theorem sortedKeys_pairwise (g : Grouped ρ) (ks : List PyKey)
    (h : sortedKeys g = .ok ks) : ks.Pairwise keyLe :=
  pySort_pairwise keyLe keyLe_trans
    (fun a b o hc hw => keyLe_of_cmp_not_lt a b o hc (by simpa using hw))
    (fun a b o hc hw => Or.inl (by rw [hc, show o = .lt by simpa using hw]))
    h

/-- `sorted(keys)` is a permutation of the keys. -/
theorem sortedKeys_perm (g : Grouped ρ) (ks : List PyKey)
    (h : sortedKeys g = .ok ks) : ks.Perm (keysOf g) :=
  pySort_perm h

/-- Two `keyLe`-sorted permutations of each other, over string keys, are
equal (string comparison is antisymmetric). -/
theorem sorted_perm_eq_str : ∀ (l1 l2 : List PyKey), l1.Perm l2 →
    l1.Pairwise keyLe → l2.Pairwise keyLe →
    (∀ k ∈ l1, ∃ s, k = PyKey.str s) → l1 = l2 := by
  intro l1
  induction l1 with
  | nil =>
    intro l2 hperm _ _ _
    exact (hperm.symm.eq_nil).symm
  | cons a t1 ih =>
    intro l2 hperm h1 h2 hstr
    cases l2 with
    | nil => exact (nomatch hperm.eq_nil)
    | cons b t2 =>
      have hab : a = b := by
        have ha2 : a ∈ b :: t2 := hperm.mem_iff.mp (List.mem_cons_self a t1)
        have hb1 : b ∈ a :: t1 := hperm.symm.mem_iff.mp (List.mem_cons_self b t2)
        rcases List.mem_cons.mp ha2 with h | ha2
        · exact h
        rcases List.mem_cons.mp hb1 with h | hb1
        · exact h.symm
        have hle1 : keyLe a b := (List.pairwise_cons.mp h1).1 b hb1
        have hle2 : keyLe b a := (List.pairwise_cons.mp h2).1 a ha2
        obtain ⟨s, hs⟩ := hstr a (List.mem_cons_self a t1)
        obtain ⟨t, ht⟩ := hstr b (List.mem_cons_of_mem a hb1)
        subst hs
        subst ht
        exact keyLe_antisymm_str s t hle1 hle2
      subst hab
      have hperm' : t1.Perm t2 := hperm.cons_inv
      rw [ih t2 hperm' (List.pairwise_cons.mp h1).2 (List.pairwise_cons.mp h2).2
        (fun k hk => hstr k (List.mem_cons_of_mem a hk))]

/-- Python key equality is reflexive. -/
theorem pyKeyEq_refl : ∀ k : PyKey, pyKeyEq k k = true := by
  intro k
  cases k <;> simp [pyKeyEq]

/-- Against a string key on the right, Python key equality is structural
equality. -/
theorem pyKeyEq_str : ∀ (k : PyKey) (s : Str),
    pyKeyEq k (.str s) = true ↔ k = .str s := by
  intro k s
  cases k <;> simp [pyKeyEq]

/-- Against a string key on the left, Python key equality is structural
equality. -/
theorem pyKeyEq_str_l : ∀ (s : Str) (k : PyKey),
    pyKeyEq (.str s) k = true ↔ k = .str s := by
  intro s k
  cases k <;> simp [pyKeyEq, eq_comm]

/-- Keys pairwise-unequal under Python key equality are duplicate-free. -/
theorem nodup_of_pairwise_pkne (l : List PyKey)
    (h : l.Pairwise (fun a b => pyKeyEq a b = false)) : l.Nodup :=
  h.imp (fun hab heq => by rw [heq, pyKeyEq_refl] at hab; exact (nomatch hab))

/-- If no listed key is Python-equal to `k0`, each compares `false`. -/
theorem all_pkne_of_not_hit (ks : List PyKey) (k0 : PyKey)
    (hc : ¬∃ k' ∈ ks, pyKeyEq k' k0 = true) :
    ∀ k' ∈ ks, pyKeyEq k' k0 = false := by
  intro k' hk'
  cases hb : pyKeyEq k' k0 with
  | false => rfl
  | true => exact absurd ⟨k', hk', hb⟩ hc

/-- Filing under a key with an existing Python-equal key keeps the key
list unchanged (the dict keeps its first-inserted key object). -/
theorem addAssoc_keys_hit (k0 : PyKey) (r : ρ) :
    ∀ g : Grouped ρ, (∃ k' ∈ keysOf g, pyKeyEq k' k0 = true) →
      keysOf (addAssoc k0 r g) = keysOf g := by
  intro g
  induction g with
  | nil =>
    rintro ⟨k', hk', _⟩
    exact absurd hk' (List.not_mem_nil k')
  | cons p t ih =>
    rintro ⟨k', hk', hkeq⟩
    obtain ⟨kh, rs⟩ := p
    by_cases hh : pyKeyEq kh k0 = true
    · simp [addAssoc, hh, keysOf]
    · have hne : k' ≠ kh := fun he => hh (he ▸ hkeq)
      have hmem : k' ∈ keysOf t := by
        rcases List.mem_cons.mp (show k' ∈ kh :: keysOf t from hk') with h | h
        · exact absurd h hne
        · exact h
      have hih := ih ⟨k', hmem, hkeq⟩
      simp only [keysOf] at hih
      simp [addAssoc, hh, keysOf, hih]

/-- Filing under a fresh key appends it to the key list. -/
theorem addAssoc_keys_miss (k0 : PyKey) (r : ρ) :
    ∀ g : Grouped ρ, (∀ k' ∈ keysOf g, pyKeyEq k' k0 = false) →
      keysOf (addAssoc k0 r g) = keysOf g ++ [k0] := by
  intro g
  induction g with
  | nil => intro _; rfl
  | cons p t ih =>
    intro h
    obtain ⟨kh, rs⟩ := p
    have hh : pyKeyEq kh k0 = false :=
      h kh (List.mem_cons_self kh (keysOf t))
    have hih := ih (fun k' hk' => h k' (List.mem_cons_of_mem kh hk'))
    simp only [keysOf] at hih
    simp [addAssoc, hh, keysOf, hih]

/-- Every key present before filing is still present after. -/
theorem addAssoc_keys_subset (k0 : PyKey) (r : ρ) (g : Grouped ρ) :
    ∀ k ∈ keysOf g, k ∈ keysOf (addAssoc k0 r g) := by
  by_cases hc : ∃ k' ∈ keysOf g, pyKeyEq k' k0 = true
  · rw [addAssoc_keys_hit k0 r g hc]
    exact fun k hk => hk
  · rw [addAssoc_keys_miss k0 r g (all_pkne_of_not_hit _ k0 hc)]
    exact fun k hk => List.mem_append_left _ hk

/-- A key present after filing is an old key or the filed one. -/
theorem addAssoc_keys_mem (k0 : PyKey) (r : ρ) (g : Grouped ρ) :
    ∀ k ∈ keysOf (addAssoc k0 r g), k ∈ keysOf g ∨ k = k0 := by
  by_cases hc : ∃ k' ∈ keysOf g, pyKeyEq k' k0 = true
  · rw [addAssoc_keys_hit k0 r g hc]
    exact fun k hk => Or.inl hk
  · rw [addAssoc_keys_miss k0 r g (all_pkne_of_not_hit _ k0 hc)]
    intro k hk
    rcases List.mem_append.mp hk with hk | hk
    · exact Or.inl hk
    · exact Or.inr (List.mem_singleton.mp hk)

/-- After filing, some key Python-equal to the filed key is present. -/
theorem addAssoc_keys_repr (k0 : PyKey) (r : ρ) (g : Grouped ρ) :
    ∃ k' ∈ keysOf (addAssoc k0 r g), pyKeyEq k' k0 = true := by
  by_cases hc : ∃ k' ∈ keysOf g, pyKeyEq k' k0 = true
  · obtain ⟨k', hk', he⟩ := hc
    exact ⟨k', addAssoc_keys_subset k0 r g k' hk', he⟩
  · rw [addAssoc_keys_miss k0 r g (all_pkne_of_not_hit _ k0 hc)]
    exact ⟨k0, List.mem_append_right _ (List.mem_singleton_self k0),
      pyKeyEq_refl k0⟩

/-- Filing keeps the keys pairwise Python-unequal. -/
theorem addAssoc_keys_distinct (k0 : PyKey) (r : ρ) (g : Grouped ρ)
    (h : (keysOf g).Pairwise (fun a b => pyKeyEq a b = false)) :
    (keysOf (addAssoc k0 r g)).Pairwise (fun a b => pyKeyEq a b = false) := by
  by_cases hc : ∃ k' ∈ keysOf g, pyKeyEq k' k0 = true
  · rw [addAssoc_keys_hit k0 r g hc]
    exact h
  · have hm := all_pkne_of_not_hit _ k0 hc
    rw [addAssoc_keys_miss k0 r g hm]
    refine List.pairwise_append.mpr ⟨h, List.pairwise_singleton _ _, ?_⟩
    intro a ha b hb
    rw [List.mem_singleton.mp hb]
    exact hm a ha

/-- Keys of a grouping run: pairwise Python-inequality of the keys is
preserved, old keys persist, every final key is an old key or a produced
key, and every produced key has a Python-equal representative among the
final keys. -/
theorem groupFold_keys (ex : Json → Py (Json × ρ)) :
    ∀ (items : List Json) (g g' : Grouped ρ), groupFold ex g items = .ok g' →
      ((keysOf g).Pairwise (fun a b => pyKeyEq a b = false) →
        (keysOf g').Pairwise (fun a b => pyKeyEq a b = false)) ∧
      (∀ k ∈ keysOf g, k ∈ keysOf g') ∧
      (∀ k ∈ keysOf g', k ∈ keysOf g ∨
        ∃ item ∈ items, ∃ repo rec, ex item = .ok (repo, rec) ∧
          toKey repo = .ok k) ∧
      (∀ item ∈ items, ∀ repo rec k, ex item = .ok (repo, rec) →
        toKey repo = .ok k →
        ∃ k' ∈ keysOf g', pyKeyEq k' k = true) := by
  intro items
  induction items with
  | nil =>
    intro g g' h
    simp only [groupFold] at h
    injection h with h
    subst h
    exact ⟨id, fun k hk => hk, fun k hk => Or.inl hk,
      fun item hit => absurd hit (List.not_mem_nil item)⟩
  | cons item items ih =>
    intro g g' h
    simp only [groupFold, groupStep] at h
    cases hex : ex item with
    | error e => simp only [hex] at h; exact (nomatch h)
    | ok p =>
      obtain ⟨repo, rec⟩ := p
      simp only [hex] at h
      cases hk : toKey repo with
      | error e => simp only [hk] at h; exact (nomatch h)
      | ok k0 =>
        simp only [hk] at h
        obtain ⟨hdist, hsub, hold, hrepr⟩ := ih (addAssoc k0 rec g) g' h
        refine ⟨fun hd => hdist (addAssoc_keys_distinct k0 rec g hd),
          fun k hkg => hsub k (addAssoc_keys_subset k0 rec g k hkg),
          ?_, ?_⟩
        · intro k hkg'
          rcases hold k hkg' with hm | ⟨it, hit, repo', rec', hex', hk'⟩
          · rcases addAssoc_keys_mem k0 rec g k hm with hm2 | hm2
            · exact Or.inl hm2
            · exact Or.inr ⟨item, List.mem_cons_self item items, repo, rec,
                hex, by rw [hm2]; exact hk⟩
          · exact Or.inr ⟨it, List.mem_cons_of_mem item hit, repo', rec',
              hex', hk'⟩
        · intro it hit repo' rec' k hex' hk'
          rcases List.mem_cons.mp hit with hit1 | hit2
          · subst hit1
            have he := hex.symm.trans hex'
            rw [Except.ok.injEq, Prod.mk.injEq] at he
            rw [← he.1] at hk'
            have hkk := hk.symm.trans hk'
            rw [Except.ok.injEq] at hkk
            subst hkk
            obtain ⟨k', hkm, hke⟩ := addAssoc_keys_repr k0 rec g
            exact ⟨k', hsub k' hkm, hke⟩
          · exact hrepr it hit2 repo' rec' k hex' hk'

/-- Sorting the groups keeps keys and their order. -/
theorem sortGroups_keys (dOf : ρ → Option PyDT) :
    ∀ (g g' : Grouped ρ), sortGroups dOf g = .ok g' → keysOf g' = keysOf g := by
  intro g
  induction g with
  | nil =>
    intro g' h
    simp only [sortGroups] at h
    injection h with h
    subst h
    rfl
  | cons p t ih =>
    intro g' h
    obtain ⟨k, rs⟩ := p
    simp only [sortGroups] at h
    cases hs : pySort (cmpByDate dOf) (fun o => o = .gt) rs with
    | error e => simp only [hs] at h; exact (nomatch h)
    | ok rs' =>
      simp only [hs] at h
      cases ht : sortGroups dOf t with
      | error e => simp only [ht] at h; exact (nomatch h)
      | ok t' =>
        simp only [ht] at h
        injection h with h
        subst h
        have hti := ih t' ht
        simp only [keysOf, List.map_cons] at hti ⊢
        rw [hti]

/-- A successful classification: duplicate-free keys, every key produced
by some item, and every produced key represented up to Python key
equality. -/
theorem processWith_keys (ex : Json → Py (Json × ρ)) (dOf : ρ → Option PyDT)
    (l : List Json) (g : Grouped ρ)
    (h : processWith ex dOf (.arr l) = .ok g) :
    (keysOf g).Nodup ∧
    (∀ k ∈ keysOf g, ∃ item ∈ l, ∃ repo rec,
      ex item = .ok (repo, rec) ∧ toKey repo = .ok k) ∧
    (∀ item ∈ l, ∀ repo rec k, ex item = .ok (repo, rec) →
      toKey repo = .ok k → ∃ k' ∈ keysOf g, pyKeyEq k' k = true) := by
  unfold processWith at h
  simp only [pyIter] at h
  cases hg0 : groupFold ex [] l with
  | error e => simp only [hg0] at h; exact (nomatch h)
  | ok g0 =>
    simp only [hg0] at h
    obtain ⟨hdist, hsub, hold, hrepr⟩ := groupFold_keys ex l [] g0 hg0
    have hkeys := sortGroups_keys dOf g0 g h
    rw [hkeys]
    refine ⟨nodup_of_pairwise_pkne _ (hdist List.Pairwise.nil), ?_, ?_⟩
    · intro k hk
      rcases hold k hk with hm | hp
      · exact absurd hm (List.not_mem_nil k)
      · exact hp
    · exact fun it hit repo rec k hex' hk' => hrepr it hit repo rec k hex' hk'

/-- Core of C8: over string identifiers, the sorted key sequence of a
classification is `keyLe`-sorted and invariant under permuting the raw
items. -/
theorem processWith_repoOrder (ex : Json → Py (Json × ρ))
    (dOf : ρ → Option PyDT) (l l' : List Json) (g g' : Grouped ρ)
    (ks ks' : List PyKey)
    (hperm : l.Perm l')
    (h : processWith ex dOf (.arr l) = .ok g)
    (h' : processWith ex dOf (.arr l') = .ok g')
    (hks : sortedKeys g = .ok ks)
    (hks' : sortedKeys g' = .ok ks')
    (hstr : ∀ k ∈ ks, ∃ s, k = PyKey.str s) :
    ks.Pairwise keyLe ∧ ks = ks' := by
  obtain ⟨hnd, hprod, hrep⟩ := processWith_keys ex dOf l g h
  obtain ⟨hnd', hprod', hrep'⟩ := processWith_keys ex dOf l' g' h'
  have hstrg : ∀ k ∈ keysOf g, ∃ s, k = PyKey.str s := fun k hk =>
    hstr k ((sortedKeys_perm g ks hks).mem_iff.mpr hk)
  have hsub : ∀ k ∈ keysOf g, k ∈ keysOf g' := by
    intro k hk
    obtain ⟨it, hit, repo, rec, hex, hkk⟩ := hprod k hk
    obtain ⟨k2, hk2mem, hk2eq⟩ :=
      hrep' it (hperm.mem_iff.mp hit) repo rec k hex hkk
    obtain ⟨s, hs⟩ := hstrg k hk
    subst hs
    rw [← (pyKeyEq_str k2 s).mp hk2eq]
    exact hk2mem
  have hsub' : ∀ k ∈ keysOf g', k ∈ keysOf g := by
    intro k hk
    obtain ⟨it, hit, repo, rec, hex, hkk⟩ := hprod' k hk
    obtain ⟨k2, hk2mem, hk2eq⟩ :=
      hrep it (hperm.mem_iff.mpr hit) repo rec k hex hkk
    obtain ⟨s, hs⟩ := hstrg k2 hk2mem
    subst hs
    rw [(pyKeyEq_str_l s k).mp hk2eq]
    exact hk2mem
  have hkp : (keysOf g).Perm (keysOf g') := by
    rw [List.perm_ext_iff_of_nodup hnd hnd']
    exact fun k => ⟨fun hk => hsub k hk, fun hk => hsub' k hk⟩
  have hksp : ks.Perm ks' :=
    ((sortedKeys_perm g ks hks).trans hkp).trans (sortedKeys_perm g' ks' hks').symm
  exact ⟨sortedKeys_pairwise g ks hks,
    sorted_perm_eq_str ks ks' hksp (sortedKeys_pairwise g ks hks)
      (sortedKeys_pairwise g' ks' hks') hstr⟩

/-- A pattern leads any string it prefixes. -/
theorem leadsWith_append : ∀ (p x : Str), leadsWith p (p ++ x) = true := by
  intro p
  induction p with
  | nil => intro x; rfl
  | cons c cs ih => intro x; simp [leadsWith, ih x]

/-- Lines produced by `renderItems` come from the item renderer. -/
theorem renderItems_mem (f : ρ → Py (List Str)) :
    ∀ (rs : List ρ) (il : List Str), renderItems f rs = .ok il →
      ∀ l ∈ il, ∃ r lines, f r = .ok lines ∧ l ∈ lines := by
  intro rs
  induction rs with
  | nil =>
    intro il h l hl
    simp only [renderItems] at h
    injection h with h
    subst h
    exact absurd hl (List.not_mem_nil l)
  | cons r rs ih =>
    intro il h l hl
    simp only [renderItems] at h
    cases hf : f r with
    | error e => simp only [hf] at h; exact (nomatch h)
    | ok ls =>
      simp only [hf] at h
      cases hrest : renderItems f rs with
      | error e => simp only [hrest] at h; exact (nomatch h)
      | ok rest =>
        simp only [hrest] at h
        injection h with h
        subst h
        rcases List.mem_append.mp hl with hl | hl
        · exact ⟨r, ls, hf, hl⟩
        · exact ih rest hrest l hl

/-- Body lines always carry the `"  > "` indent. -/
theorem format_body_shape : ∀ (b : Json) (bs : List Str),
    format_body b = .ok bs → ∀ l ∈ bs, ∃ t, l = chars "  > " ++ t := by
  intro b bs h l hl
  unfold format_body at h
  by_cases ht : pyTruthy b = false
  · rw [if_pos ht] at h
    injection h with h
    subst h
    exact absurd hl (List.not_mem_nil l)
  · rw [if_neg ht] at h
    cases b with
    | str s =>
      have h' : (if (pyStrip s).isEmpty = true then (Except.ok [] : Py (List Str))
          else .ok (((pyStrip s).splitOn '\n').map
            (fun line => chars "  > " ++ line))) = .ok bs := h
      by_cases he : (pyStrip s).isEmpty = true
      · rw [if_pos he] at h'
        injection h' with h'
        subst h'
        exact absurd hl (List.not_mem_nil l)
      · rw [if_neg he] at h'
        injection h' with h'
        subst h'
        obtain ⟨line, _, hline⟩ := List.mem_map.mp hl
        exact ⟨line, hline.symm⟩
    | null => exact (nomatch h)
    | bool c => exact (nomatch h)
    | num n => exact (nomatch h)
    | arr a => exact (nomatch h)
    | obj o => exact (nomatch h)

/-- Commit list lines never look like repository headings. -/
theorem commitItemLines_noheading : ∀ (r : CommitRec) (lines : List Str),
    commitItemLines r = .ok lines → ∀ l ∈ lines, isRepoHeading l = false := by
  intro r lines h l hl
  injection h with h
  subst h
  rcases List.mem_singleton.mp hl with h
  subst h
  rfl

/-- Issues-created lines never look like repository headings. -/
theorem issueCreatedLines_noheading (ib : Bool) :
    ∀ (r : IssueRec) (lines : List Str), issueCreatedLines ib r = .ok lines →
      ∀ l ∈ lines, isRepoHeading l = false := by
  intro r lines h l hl
  unfold issueCreatedLines at h
  cases ib with
  | false =>
    injection h with h
    subst h
    rcases List.mem_singleton.mp hl with h
    subst h
    rfl
  | true =>
    cases hfb : format_body r.body with
    | error e => simp only [hfb] at h; exact (nomatch h)
    | ok bs =>
      simp only [hfb] at h
      injection h with h
      subst h
      rcases List.mem_cons.mp hl with hl | hl
      · subst hl; rfl
      · obtain ⟨t, hT⟩ := format_body_shape r.body bs hfb l hl
        subst hT
        rfl

/-- Issues-commented lines never look like repository headings. -/
theorem issueCommentedLines_noheading : ∀ (r : IssueRec) (lines : List Str),
    issueCommentedLines r = .ok lines → ∀ l ∈ lines, isRepoHeading l = false := by
  intro r lines h l hl
  injection h with h
  subst h
  rcases List.mem_singleton.mp hl with h
  subst h
  rfl

/-- PRs-created lines never look like repository headings. -/
theorem prCreatedLines_noheading (ib : Bool) :
    ∀ (r : PrRec) (lines : List Str), prCreatedLines ib r = .ok lines →
      ∀ l ∈ lines, isRepoHeading l = false := by
  intro r lines h l hl
  unfold prCreatedLines at h
  cases ib with
  | false =>
    injection h with h
    subst h
    rcases List.mem_singleton.mp hl with h
    subst h
    rfl
  | true =>
    cases hfb : format_body r.body with
    | error e => simp only [hfb] at h; exact (nomatch h)
    | ok bs =>
      simp only [hfb] at h
      injection h with h
      subst h
      rcases List.mem_cons.mp hl with hl | hl
      · subst hl; rfl
      · obtain ⟨t, hT⟩ := format_body_shape r.body bs hfb l hl
        subst hT
        rfl

/-- PRs-reviewed lines never look like repository headings. -/
theorem prReviewedLines_noheading : ∀ (r : PrRec) (lines : List Str),
    prReviewedLines r = .ok lines → ∀ l ∈ lines, isRepoHeading l = false := by
  intro r lines h l hl
  injection h with h
  subst h
  rcases List.mem_singleton.mp hl with h
  subst h
  rfl

/-- The lines of the repository blocks filter down to exactly the
`### repo` headings, in key order. -/
theorem renderRepos_headings (g : Grouped ρ) (f : ρ → Py (List Str))
    (hf : ∀ r lines, f r = .ok lines → ∀ l ∈ lines, isRepoHeading l = false) :
    ∀ (ks : List PyKey) (out : List Str), renderRepos g f ks = .ok out →
      out.filter (fun l => isRepoHeading l) =
        ks.map (fun k => chars "### " ++ keyFormat k) := by
  intro ks
  induction ks with
  | nil =>
    intro out h
    simp only [renderRepos] at h
    injection h with h
    subst h
    rfl
  | cons k kt ih =>
    intro out h
    simp only [renderRepos] at h
    cases hri : renderItems f (assocGet g k) with
    | error e => simp only [hri] at h; exact (nomatch h)
    | ok il =>
      simp only [hri] at h
      cases hrest : renderRepos g f kt with
      | error e => simp only [hrest] at h; exact (nomatch h)
      | ok rest =>
        simp only [hrest] at h
        injection h with h
        subst h
        have hil : il.filter (fun l => isRepoHeading l) = [] := by
          rw [List.filter_eq_nil]
          intro a ha
          obtain ⟨r, lines, hfr, hmem⟩ := renderItems_mem f _ il hri a ha
          simp [hf r lines hfr a hmem]
        have hhd : isRepoHeading (chars "### " ++ keyFormat k) = true :=
          leadsWith_append (chars "### ") (keyFormat k)
        have hnil : isRepoHeading ([] : Str) = false := rfl
        simp [List.filter_cons, List.filter_append, hhd, hnil, hil,
          ih rest hrest]

/-- In a rendered section, the lines that look like repository headings
are exactly `### k` for the sorted keys, in order. -/
theorem renderSection_headings (header : Str) (g : Grouped ρ)
    (f : ρ → Py (List Str))
    (hf : ∀ r lines, f r = .ok lines → ∀ l ∈ lines, isRepoHeading l = false)
    (hhdr : isRepoHeading header = false)
    (ks : List PyKey) (out : List Str)
    (hks : sortedKeys g = .ok ks)
    (hout : renderSection header g f = .ok out) :
    out.filter (fun l => isRepoHeading l) =
      ks.map (fun k => chars "### " ++ keyFormat k) := by
  unfold renderSection at hout
  by_cases hge : g.isEmpty
  · rw [if_pos hge] at hout
    injection hout with hout
    subst hout
    have hgnil : g = [] := List.isEmpty_iff.mp hge
    subst hgnil
    have hksnil : ks = [] := by
      have h0 : sortedKeys ([] : Grouped ρ) = .ok [] := rfl
      exact Except.ok.inj (hks.symm.trans h0)
    subst hksnil
    have h1 : isRepoHeading ([] : Str) = false := rfl
    have h2 : isRepoHeading (chars "None") = false := rfl
    simp [List.filter_cons, hhdr, h1, h2]
  · rw [if_neg hge] at hout
    simp only [hks] at hout
    cases hrr : renderRepos g f ks with
    | error e => simp only [hrr] at hout; exact (nomatch hout)
    | ok body =>
      simp only [hrr] at hout
      injection hout with hout
      subst hout
      have h1 : isRepoHeading ([] : Str) = false := rfl
      simp [List.filter_cons, hhdr, h1, renderRepos_headings g f hf ks body hrr]

/-- **C8.**  For each classifier, over string repository identifiers:
the sorted key sequence driving a section's repository subsections is
sorted for the `sorted()` order (lexicographic on strings), and
permuting the raw input records never changes it; moreover in every
rendered section the lines that open repository subsections are exactly
`### <repo>` for those keys, in that order. -/
theorem claim_C8 :
    (∀ (l l' : List Json) (g g' : Grouped CommitRec) (ks ks' : List PyKey),
      l.Perm l' →
      process_commits (.arr l) = .ok g → process_commits (.arr l') = .ok g' →
      sortedKeys g = .ok ks → sortedKeys g' = .ok ks' →
      (∀ k ∈ ks, ∃ s, k = PyKey.str s) →
      ks.Pairwise keyLe ∧ ks = ks' ∧
      ∀ out, renderSection (chars "## Commits (" ++ natStr (countRecs g)
          ++ chars ")") g commitItemLines = .ok out →
        out.filter (fun l2 => isRepoHeading l2) =
          ks.map (fun k => chars "### " ++ keyFormat k)) ∧
    (∀ (l l' : List Json) (g g' : Grouped IssueRec) (ks ks' : List PyKey),
      l.Perm l' →
      process_issues (.arr l) = .ok g → process_issues (.arr l') = .ok g' →
      sortedKeys g = .ok ks → sortedKeys g' = .ok ks' →
      (∀ k ∈ ks, ∃ s, k = PyKey.str s) →
      ks.Pairwise keyLe ∧ ks = ks' ∧
      (∀ ib out, renderSection (chars "## Issues Created ("
          ++ natStr (countRecs g) ++ chars ")") g (issueCreatedLines ib) =
            .ok out →
        out.filter (fun l2 => isRepoHeading l2) =
          ks.map (fun k => chars "### " ++ keyFormat k)) ∧
      (∀ out, renderSection (chars "## Issues Commented ("
          ++ natStr (countRecs g) ++ chars ")") g issueCommentedLines =
            .ok out →
        out.filter (fun l2 => isRepoHeading l2) =
          ks.map (fun k => chars "### " ++ keyFormat k))) ∧
    (∀ (l l' : List Json) (g g' : Grouped PrRec) (ks ks' : List PyKey),
      l.Perm l' →
      process_prs (.arr l) = .ok g → process_prs (.arr l') = .ok g' →
      sortedKeys g = .ok ks → sortedKeys g' = .ok ks' →
      (∀ k ∈ ks, ∃ s, k = PyKey.str s) →
      ks.Pairwise keyLe ∧ ks = ks' ∧
      (∀ ib out, renderSection (chars "## PRs Created ("
          ++ natStr (countRecs g) ++ chars ")") g (prCreatedLines ib) =
            .ok out →
        out.filter (fun l2 => isRepoHeading l2) =
          ks.map (fun k => chars "### " ++ keyFormat k)) ∧
      (∀ out, renderSection (chars "## PRs Reviewed ("
          ++ natStr (countRecs g) ++ chars ")") g prReviewedLines = .ok out →
        out.filter (fun l2 => isRepoHeading l2) =
          ks.map (fun k => chars "### " ++ keyFormat k))) := by
  refine ⟨fun l l' g g' ks ks' hperm h h' hks hks' hstr => ?_,
          fun l l' g g' ks ks' hperm h h' hks hks' hstr => ?_,
          fun l l' g g' ks ks' hperm h h' hks hks' hstr => ?_⟩
  · obtain ⟨hpw, heq⟩ := processWith_repoOrder extractCommit CommitRec.date
      l l' g g' ks ks' hperm h h' hks hks' hstr
    exact ⟨hpw, heq, fun out hout => renderSection_headings
      (chars "## Commits (" ++ natStr (countRecs g) ++ chars ")") g
      commitItemLines commitItemLines_noheading rfl ks out hks hout⟩
  · obtain ⟨hpw, heq⟩ := processWith_repoOrder extractIssue IssueRec.date
      l l' g g' ks ks' hperm h h' hks hks' hstr
    exact ⟨hpw, heq,
      fun ib out hout => renderSection_headings
        (chars "## Issues Created (" ++ natStr (countRecs g) ++ chars ")") g
        (issueCreatedLines ib) (issueCreatedLines_noheading ib) rfl ks out
        hks hout,
      fun out hout => renderSection_headings
        (chars "## Issues Commented (" ++ natStr (countRecs g) ++ chars ")") g
        issueCommentedLines issueCommentedLines_noheading rfl ks out hks hout⟩
  · obtain ⟨hpw, heq⟩ := processWith_repoOrder extractPr PrRec.date
      l l' g g' ks ks' hperm h h' hks hks' hstr
    exact ⟨hpw, heq,
      fun ib out hout => renderSection_headings
        (chars "## PRs Created (" ++ natStr (countRecs g) ++ chars ")") g
        (prCreatedLines ib) (prCreatedLines_noheading ib) rfl ks out hks hout,
      fun out hout => renderSection_headings
        (chars "## PRs Reviewed (" ++ natStr (countRecs g) ++ chars ")") g
        prReviewedLines prReviewedLines_noheading rfl ks out hks hout⟩

/-- Witness for C8: two issues in repositories `bbb` and `aaa`, fed in
both orders, sort to the same `[aaa, bbb]` key sequence. -/
theorem claim_C8_witness :
    c8ks.Pairwise keyLe ∧ c8ks = c8ks' := by
  have h := claim_C8.2.1 [c8item1, c8item2] [c8item2, c8item1] c8g c8g'
    c8ks c8ks' (List.Perm.swap c8item2 c8item1 []) rfl rfl rfl rfl
    (by
      intro k hk
      rw [show c8ks = [PyKey.str (chars "aaa"), PyKey.str (chars "bbb")]
        from rfl] at hk
      rcases List.mem_cons.mp hk with h | hk
      · exact ⟨chars "aaa", h⟩
      rcases List.mem_cons.mp hk with h | hk
      · exact ⟨chars "bbb", h⟩
      · exact absurd hk (List.not_mem_nil k))
  exact ⟨h.1, h.2.1⟩

/-! ### Url-independence of the pipeline (C10) -/

/-- Two url-masked-equal values are both objects or equal outright. -/
theorem stripUrl_shape (i i' : Json) (h : stripUrl i = stripUrl i') :
    (∃ fs fs', i = .obj fs ∧ i' = .obj fs') ∨ i = i' := by
  cases i with
  | obj fs =>
    cases i' with
    | obj fs' => exact Or.inl ⟨fs, fs', rfl, rfl⟩
    | null => exact (nomatch h)
    | bool b => exact (nomatch h)
    | num n => exact (nomatch h)
    | str s => exact (nomatch h)
    | arr l => exact (nomatch h)
  | null =>
    cases i' with
    | obj fs' => exact (nomatch h)
    | null => exact Or.inr rfl
    | bool b => exact (nomatch h)
    | num n => exact (nomatch h)
    | str s => exact (nomatch h)
    | arr l => exact (nomatch h)
  | bool b =>
    cases i' with
    | obj fs' => exact (nomatch h)
    | null => exact (nomatch h)
    | bool b' => exact Or.inr h
    | num n => exact (nomatch h)
    | str s => exact (nomatch h)
    | arr l => exact (nomatch h)
  | num n =>
    cases i' with
    | obj fs' => exact (nomatch h)
    | null => exact (nomatch h)
    | bool b' => exact (nomatch h)
    | num m => exact Or.inr h
    | str s => exact (nomatch h)
    | arr l => exact (nomatch h)
  | str s =>
    cases i' with
    | obj fs' => exact (nomatch h)
    | null => exact (nomatch h)
    | bool b' => exact (nomatch h)
    | num m => exact (nomatch h)
    | str t => exact Or.inr h
    | arr l => exact (nomatch h)
  | arr l =>
    cases i' with
    | obj fs' => exact (nomatch h)
    | null => exact (nomatch h)
    | bool b' => exact (nomatch h)
    | num m => exact (nomatch h)
    | str t => exact (nomatch h)
    | arr l' => exact Or.inr h

/-- Looking up a non-`url` key ignores the url mask. -/
theorem jlookup_mask_ne (k : Str) (hk : k ≠ chars "url") :
    ∀ (fs : List (Str × Json)),
      jlookup (fs.map (fun kv =>
        if kv.1 = chars "url" then (kv.1, Json.null) else kv)) k =
      jlookup fs k := by
  intro fs
  induction fs with
  | nil => rfl
  | cons kv t ih =>
    obtain ⟨k', v⟩ := kv
    rw [List.map_cons]
    by_cases hu : k' = chars "url"
    · have hm : (if ((k', v) : Str × Json).1 = chars "url" then
          (((k', v) : Str × Json).1, Json.null) else ((k', v) : Str × Json)) =
          ((k', Json.null) : Str × Json) := by simp [hu]
      rw [hm]
      have hne : k' ≠ k := fun hc => hk (hc ▸ hu)
      simp only [jlookup]
      rw [if_neg hne, if_neg hne, ih]
    · have hm : (if ((k', v) : Str × Json).1 = chars "url" then
          (((k', v) : Str × Json).1, Json.null) else ((k', v) : Str × Json)) =
          ((k', v) : Str × Json) := by simp [hu]
      rw [hm]
      simp only [jlookup]
      rw [ih]

/-- `item.get(k, d)` for a non-`url` key is invariant under url
masking. -/
theorem jget_congr (i i' : Json) (h : stripUrl i = stripUrl i')
    (k : Str) (hk : k ≠ chars "url") (d : Json) :
    jget i k d = jget i' k d := by
  rcases stripUrl_shape i i' h with ⟨fs, fs', hi, hi'⟩ | he
  · subst hi
    subst hi'
    have hf : fs.map (fun kv =>
        if kv.1 = chars "url" then (kv.1, Json.null) else kv) =
        fs'.map (fun kv =>
        if kv.1 = chars "url" then (kv.1, Json.null) else kv) := by
      have h' : Json.obj (fs.map _) = Json.obj (fs'.map _) := h
      injection h'
    rw [jget_obj, jget_obj, ← jlookup_mask_ne k hk fs, ← jlookup_mask_ne k hk fs',
      hf]
  · rw [he]

/-- Two url-masked-equal datasets are both arrays (with masked-equal
items) or equal outright. -/
theorem stripUrlData_shape (d d' : Json) (h : stripUrlData d = stripUrlData d') :
    (∃ l l', d = .arr l ∧ d' = .arr l' ∧ l.map stripUrl = l'.map stripUrl) ∨
    d = d' := by
  cases d with
  | arr l =>
    cases d' with
    | arr l' =>
      refine Or.inl ⟨l, l', rfl, rfl, ?_⟩
      have h' : Json.arr (l.map stripUrl) = Json.arr (l'.map stripUrl) := h
      injection h'
    | null => exact (nomatch h)
    | bool b => exact (nomatch h)
    | num n => exact (nomatch h)
    | str s => exact (nomatch h)
    | obj fs => exact (nomatch h)
  | null =>
    cases d' with
    | arr l' => exact (nomatch h)
    | null => exact Or.inr rfl
    | bool b => exact Or.inr h
    | num n => exact Or.inr h
    | str s => exact Or.inr h
    | obj fs => exact Or.inr h
  | bool b =>
    cases d' with
    | arr l' => exact (nomatch h)
    | null => exact Or.inr h
    | bool b' => exact Or.inr h
    | num n => exact Or.inr h
    | str s => exact Or.inr h
    | obj fs => exact Or.inr h
  | num n =>
    cases d' with
    | arr l' => exact (nomatch h)
    | null => exact Or.inr h
    | bool b' => exact Or.inr h
    | num m => exact Or.inr h
    | str s => exact Or.inr h
    | obj fs => exact Or.inr h
  | str s =>
    cases d' with
    | arr l' => exact (nomatch h)
    | null => exact Or.inr h
    | bool b' => exact Or.inr h
    | num m => exact Or.inr h
    | str t => exact Or.inr h
    | obj fs => exact Or.inr h
  | obj fs =>
    cases d' with
    | arr l' => exact (nomatch h)
    | null => exact Or.inr h
    | bool b' => exact Or.inr h
    | num m => exact Or.inr h
    | str t => exact Or.inr h
    | obj fs' => exact Or.inr h

/-- Equal images under a map make the lists pointwise image-equal. -/
theorem map_eq_forall2 (f : α → β) :
    ∀ l l' : List α, l.map f = l'.map f →
      List.Forall₂ (fun a b => f a = f b) l l'
  | [], [], _ => .nil
  | [], _ :: _, h => nomatch h
  | _ :: _, [], h => nomatch h
  | a :: t, b :: t', h => by
    injection h with h1 h2
    exact .cons h1 (map_eq_forall2 f t t' h2)

/-- The issue/PR repository identifier ignores the url mask. -/
theorem issueRepo_congr (i i' : Json) (h : stripUrl i = stripUrl i') :
    issueRepo i = issueRepo i' := by
  rcases stripUrl_shape i i' h with ⟨fs, fs', hi, hi'⟩ | he
  · subst hi
    subst hi'
    unfold issueRepo
    rw [jget_congr _ _ h (chars "repository") (by decide) (.obj [])]
  · rw [he]

/-- Commit extraction ignores the url mask entirely. -/
theorem extractCommit_congr (i i' : Json) (h : stripUrl i = stripUrl i') :
    extractCommit i = extractCommit i' := by
  rcases stripUrl_shape i i' h with ⟨fs, fs', hi, hi'⟩ | he
  · subst hi
    subst hi'
    unfold extractCommit
    rw [jget_congr _ _ h (chars "repository") (by decide) (.obj []),
        jget_congr _ _ h (chars "commit") (by decide) (.obj [])]
  · rw [he]

/-- `jlookup` on url-masked-equal objects agrees on non-`url` keys. -/
theorem jlookup_congr (fs fs' : List (Str × Json))
    (h : stripUrl (.obj fs) = stripUrl (.obj fs'))
    (k : Str) (hk : k ≠ chars "url") : jlookup fs k = jlookup fs' k := by
  have h' : Json.obj (fs.map (fun kv =>
      if kv.1 = chars "url" then (kv.1, Json.null) else kv)) =
      Json.obj (fs'.map (fun kv =>
      if kv.1 = chars "url" then (kv.1, Json.null) else kv)) := h
  injection h' with hf
  rw [← jlookup_mask_ne k hk fs, ← jlookup_mask_ne k hk fs', hf]

/-- `extractIssue` on an object item, with every field access resolved. -/
theorem extractIssue_obj (fs : List (Str × Json)) :
    extractIssue (.obj fs) =
    (match issueRepo (.obj fs) with
     | .error e => .error e
     | .ok repo =>
       match parse_date ((jlookup fs (chars "createdAt")).getD .null) with
       | .error e => .error e
       | .ok date =>
         match pyLowerJ ((jlookup fs (chars "state")).getD (.str [])) with
         | .error e => .error e
         | .ok state =>
           .ok (repo, ⟨(jlookup fs (chars "title")).getD (.str []), state, date,
                 (jlookup fs (chars "url")).getD (.str []),
                 (jlookup fs (chars "body")).getD (.str [])⟩)) := by
  unfold extractIssue
  rw [jget_obj, jget_obj, jget_obj, jget_obj, jget_obj]

/-- `extractPr` on an object item, with every field access resolved. -/
theorem extractPr_obj (fs : List (Str × Json)) :
    extractPr (.obj fs) =
    (match issueRepo (.obj fs) with
     | .error e => .error e
     | .ok repo =>
       match parse_date ((jlookup fs (chars "createdAt")).getD .null) with
       | .error e => .error e
       | .ok date =>
         match pyLowerJ ((jlookup fs (chars "state")).getD (.str [])) with
         | .error e => .error e
         | .ok state =>
           .ok (repo, ⟨(jlookup fs (chars "title")).getD (.str []), state, date,
                 (jlookup fs (chars "url")).getD (.str []),
                 state = chars "merged",
                 (jlookup fs (chars "body")).getD (.str [])⟩)) := by
  unfold extractPr
  rw [jget_obj, jget_obj, jget_obj, jget_obj, jget_obj]

/-- Issue extraction on url-masked-equal items yields the same outcome up
to masking the url of the extracted record (and identical errors). -/
theorem extractIssue_congr (i i' : Json) (h : stripUrl i = stripUrl i') :
    Except.map (fun p : Json × IssueRec => (p.1, scrubI p.2)) (extractIssue i) =
    Except.map (fun p : Json × IssueRec => (p.1, scrubI p.2)) (extractIssue i') := by
  rcases stripUrl_shape i i' h with ⟨fs, fs', hi, hi'⟩ | he
  · subst hi
    subst hi'
    rw [extractIssue_obj fs, extractIssue_obj fs', issueRepo_congr _ _ h,
        jlookup_congr fs fs' h (chars "createdAt") (by decide),
        jlookup_congr fs fs' h (chars "title") (by decide),
        jlookup_congr fs fs' h (chars "state") (by decide),
        jlookup_congr fs fs' h (chars "body") (by decide)]
    cases issueRepo (Json.obj fs') with
    | error e => rfl
    | ok repo =>
      cases parse_date ((jlookup fs' (chars "createdAt")).getD Json.null) with
      | error e => rfl
      | ok date =>
        cases pyLowerJ ((jlookup fs' (chars "state")).getD (Json.str [])) with
        | error e => rfl
        | ok state => rfl
  · rw [he]

/-- PR extraction on url-masked-equal items yields the same outcome up to
masking the url of the extracted record (and identical errors). -/
theorem extractPr_congr (i i' : Json) (h : stripUrl i = stripUrl i') :
    Except.map (fun p : Json × PrRec => (p.1, scrubP p.2)) (extractPr i) =
    Except.map (fun p : Json × PrRec => (p.1, scrubP p.2)) (extractPr i') := by
  rcases stripUrl_shape i i' h with ⟨fs, fs', hi, hi'⟩ | he
  · subst hi
    subst hi'
    rw [extractPr_obj fs, extractPr_obj fs', issueRepo_congr _ _ h,
        jlookup_congr fs fs' h (chars "createdAt") (by decide),
        jlookup_congr fs fs' h (chars "title") (by decide),
        jlookup_congr fs fs' h (chars "state") (by decide),
        jlookup_congr fs fs' h (chars "body") (by decide)]
    cases issueRepo (Json.obj fs') with
    | error e => rfl
    | ok repo =>
      cases parse_date ((jlookup fs' (chars "createdAt")).getD Json.null) with
      | error e => rfl
      | ok date =>
        cases pyLowerJ ((jlookup fs' (chars "state")).getD (Json.str [])) with
        | error e => rfl
        | ok state => rfl
  · rw [he]

/-- Masking a grouping commutes with filing one record. -/
theorem addAssoc_scrub (f : ρ → ρ) (k : PyKey) (r : ρ) :
    ∀ g : Grouped ρ, scrubG f (addAssoc k r g) = addAssoc k (f r) (scrubG f g)
  | [] => rfl
  | (k', rs) :: t => by
    have ih := addAssoc_scrub f k r t
    simp only [scrubG] at ih
    by_cases he : pyKeyEq k' k = true
    · simp [addAssoc, scrubG, he]
    · simp [addAssoc, scrubG, he, ih]

/-- Commit grouping steps equally on url-masked-equal items. -/
theorem groupStep_commit_congr (g : Grouped CommitRec) (a b : Json)
    (h : stripUrl a = stripUrl b) :
    groupStep extractCommit g a = groupStep extractCommit g b := by
  unfold groupStep
  rw [extractCommit_congr a b h]

/-- Commit grouping is unchanged by url masking of the raw items. -/
theorem groupFold_commit_congr {items items' : List Json}
    (hf : List.Forall₂ (fun a b => stripUrl a = stripUrl b) items items') :
    ∀ g : Grouped CommitRec,
      groupFold extractCommit g items = groupFold extractCommit g items' := by
  induction hf with
  | nil => intro g; rfl
  | cons h1 _ ih =>
    intro g
    unfold groupFold
    rw [groupStep_commit_congr g _ _ h1]
    cases groupStep extractCommit g _ with
    | error e => rfl
    | ok g' => exact ih g'

/-- One grouping step, for extractions that agree up to record masking,
on groupings that agree up to masking. -/
theorem groupStep_scrub (ext : Json → Py (Json × ρ)) (f : ρ → ρ)
    (g g' : Grouped ρ) (a b : Json)
    (hex : Except.map (fun p : Json × ρ => (p.1, f p.2)) (ext a) =
           Except.map (fun p : Json × ρ => (p.1, f p.2)) (ext b))
    (hg : scrubG f g = scrubG f g') :
    Except.map (scrubG f) (groupStep ext g a) =
    Except.map (scrubG f) (groupStep ext g' b) := by
  unfold groupStep
  cases ha : ext a with
  | error e =>
    cases hb : ext b with
    | error e' =>
      rw [ha, hb] at hex
      have hex' : (Except.error e : Py (Json × ρ)) = .error e' := hex
      rw [Except.error.inj hex']
    | ok p' =>
      rw [ha, hb] at hex
      exact (nomatch hex)
  | ok p =>
    cases hb : ext b with
    | error e' =>
      rw [ha, hb] at hex
      exact (nomatch hex)
    | ok p' =>
      rw [ha, hb] at hex
      obtain ⟨r1, r2⟩ := p
      obtain ⟨r1', r2'⟩ := p'
      have hex' : (Except.ok (r1, f r2) : Py (Json × ρ)) =
          .ok (r1', f r2') := hex
      have hp := Except.ok.inj hex'
      have h1 : r1 = r1' := (Prod.mk.inj hp).1
      have h2 : f r2 = f r2' := (Prod.mk.inj hp).2
      subst h1
      show Except.map (scrubG f)
          (match toKey r1 with
           | .error e => .error e
           | .ok k => .ok (addAssoc k r2 g)) =
        Except.map (scrubG f)
          (match toKey r1 with
           | .error e => .error e
           | .ok k => .ok (addAssoc k r2' g'))
      cases toKey r1 with
      | error e => rfl
      | ok k =>
        show (Except.ok (scrubG f (addAssoc k r2 g)) : Py (Grouped ρ)) =
          .ok (scrubG f (addAssoc k r2' g'))
        rw [addAssoc_scrub, addAssoc_scrub, h2, hg]

/-- The grouping loop, for extractions that agree up to record masking,
on groupings that agree up to masking. -/
theorem groupFold_scrub (ext : Json → Py (Json × ρ)) (f : ρ → ρ)
    {items items' : List Json}
    (hf : List.Forall₂ (fun a b =>
      Except.map (fun p : Json × ρ => (p.1, f p.2)) (ext a) =
      Except.map (fun p : Json × ρ => (p.1, f p.2)) (ext b)) items items') :
    ∀ g g' : Grouped ρ, scrubG f g = scrubG f g' →
      Except.map (scrubG f) (groupFold ext g items) =
      Except.map (scrubG f) (groupFold ext g' items') := by
  induction hf with
  | nil =>
    intro g g' hg
    show (Except.ok (scrubG f g) : Py (Grouped ρ)) = .ok (scrubG f g')
    rw [hg]
  | cons h1 _ ih =>
    intro g g' hg
    have hstep := groupStep_scrub ext f g g' _ _ h1 hg
    unfold groupFold
    cases ha : groupStep ext g _ with
    | error e =>
      cases hb : groupStep ext g' _ with
      | error e' =>
        rw [ha, hb] at hstep
        have hstep' : (Except.error e : Py (Grouped ρ)) = .error e' := hstep
        rw [Except.error.inj hstep']
      | ok g1' =>
        rw [ha, hb] at hstep
        exact (nomatch hstep)
    | ok g1 =>
      cases hb : groupStep ext g' _ with
      | error e' =>
        rw [ha, hb] at hstep
        exact (nomatch hstep)
      | ok g1' =>
        rw [ha, hb] at hstep
        have hstep' : (Except.ok (scrubG f g1) : Py (Grouped ρ)) =
            .ok (scrubG f g1') := hstep
        exact ih g1 g1' (Except.ok.inj hstep')

/-- Insertion commutes with a comparison-preserving map. -/
theorem pyInsert_map (c : α → α → Py Ordering) (w : Ordering → Bool)
    (f : α → α) (hc : ∀ a b, c (f a) (f b) = c a b) (x : α) :
    ∀ l : List α, pyInsert c w (f x) (l.map f) =
      Except.map (List.map f) (pyInsert c w x l)
  | [] => rfl
  | y :: ys => by
    show (match c (f x) (f y) with
          | .error e => .error e
          | .ok o =>
            if w o then .ok (f x :: f y :: ys.map f)
            else
              match pyInsert c w (f x) (ys.map f) with
              | .error e => .error e
              | .ok r => .ok (f y :: r)) =
      Except.map (List.map f)
        (match c x y with
         | .error e => .error e
         | .ok o =>
           if w o then .ok (x :: y :: ys)
           else
             match pyInsert c w x ys with
             | .error e => .error e
             | .ok r => .ok (y :: r))
    rw [hc]
    cases c x y with
    | error e => rfl
    | ok o =>
      by_cases hw : w o
      · simp only [if_pos hw]
        rfl
      · simp only [if_neg hw]
        rw [pyInsert_map c w f hc x ys]
        cases pyInsert c w x ys with
        | error e => rfl
        | ok r => rfl

/-- The sorting fold commutes with a comparison-preserving map. -/
theorem pySortAux_map (c : α → α → Py Ordering) (w : Ordering → Bool)
    (f : α → α) (hc : ∀ a b, c (f a) (f b) = c a b) :
    ∀ xs acc : List α, pySortAux c w (acc.map f) (xs.map f) =
      Except.map (List.map f) (pySortAux c w acc xs)
  | [], _ => rfl
  | x :: xs, acc => by
    show (match pyInsert c w (f x) (acc.map f) with
          | .error e => .error e
          | .ok a => pySortAux c w a (xs.map f)) =
      Except.map (List.map f)
        (match pyInsert c w x acc with
         | .error e => .error e
         | .ok a => pySortAux c w a xs)
    rw [pyInsert_map c w f hc x acc]
    cases pyInsert c w x acc with
    | error e => rfl
    | ok a => exact pySortAux_map c w f hc xs a

/-- Sorting commutes with a comparison-preserving map. -/
theorem pySort_map (c : α → α → Py Ordering) (w : Ordering → Bool)
    (f : α → α) (hc : ∀ a b, c (f a) (f b) = c a b) (l : List α) :
    pySort c w (l.map f) = Except.map (List.map f) (pySort c w l) :=
  pySortAux_map c w f hc l []

/-- Per-group sorting commutes with masking when masking preserves the
sort date. -/
theorem sortGroups_scrub (dOf : ρ → Option PyDT) (f : ρ → ρ)
    (hd : ∀ r, dOf (f r) = dOf r) :
    ∀ g : Grouped ρ,
      sortGroups dOf (scrubG f g) = Except.map (scrubG f) (sortGroups dOf g)
  | [] => rfl
  | (k, rs) :: t => by
    have hc : ∀ a b, cmpByDate dOf (f a) (f b) = cmpByDate dOf a b := by
      intro a b
      unfold cmpByDate
      rw [hd, hd]
    show (match pySort (cmpByDate dOf) (fun o => o = .gt) (rs.map f) with
          | .error e => .error e
          | .ok rs' =>
            match sortGroups dOf (scrubG f t) with
            | .error e => .error e
            | .ok t' => .ok ((k, rs') :: t')) =
      Except.map (scrubG f)
        (match pySort (cmpByDate dOf) (fun o => o = .gt) rs with
         | .error e => .error e
         | .ok rs' =>
           match sortGroups dOf t with
           | .error e => .error e
           | .ok t' => .ok ((k, rs') :: t'))
    rw [pySort_map _ _ f hc rs, sortGroups_scrub dOf f hd t]
    cases pySort (cmpByDate dOf) (fun o => o = .gt) rs with
    | error e => rfl
    | ok rs' =>
      cases sortGroups dOf t with
      | error e => rfl
      | ok t' => rfl

/-- `process_issues` on url-masked-equal datasets: identical outcomes up
to masking the urls of the grouped records. -/
theorem process_issues_scrub_congr (d d' : Json)
    (h : stripUrlData d = stripUrlData d') :
    Except.map (scrubG scrubI) (process_issues d) =
    Except.map (scrubG scrubI) (process_issues d') := by
  rcases stripUrlData_shape d d' h with ⟨l, l', hd, hd', hmap⟩ | he
  · subst hd
    subst hd'
    have hf := map_eq_forall2 stripUrl l l' hmap
    have hf2 : List.Forall₂ (fun a b =>
        Except.map (fun p : Json × IssueRec => (p.1, scrubI p.2)) (extractIssue a) =
        Except.map (fun p : Json × IssueRec => (p.1, scrubI p.2)) (extractIssue b)) l l' :=
      hf.imp (fun a b hab => extractIssue_congr a b hab)
    have hg := groupFold_scrub extractIssue scrubI hf2 [] [] rfl
    unfold process_issues processWith
    have h1 : pyIter (Json.arr l) = .ok l := rfl
    have h1' : pyIter (Json.arr l') = .ok l' := rfl
    simp only [h1, h1']
    cases ha : groupFold extractIssue [] l with
    | error e =>
      cases hb : groupFold extractIssue [] l' with
      | error e' =>
        rw [ha, hb] at hg
        have hg' : (Except.error e : Py (Grouped IssueRec)) = .error e' := hg
        rw [Except.error.inj hg']
      | ok g' =>
        rw [ha, hb] at hg
        exact (nomatch hg)
    | ok g =>
      cases hb : groupFold extractIssue [] l' with
      | error e' =>
        rw [ha, hb] at hg
        exact (nomatch hg)
      | ok g' =>
        rw [ha, hb] at hg
        have hg' : scrubG scrubI g = scrubG scrubI g' :=
          Except.ok.inj (show (Except.ok (scrubG scrubI g) : Py (Grouped IssueRec)) =
            .ok (scrubG scrubI g') from hg)
        have hdate : ∀ r : IssueRec, IssueRec.date (scrubI r) = IssueRec.date r :=
          fun r => rfl
        rw [← sortGroups_scrub IssueRec.date scrubI hdate g,
            ← sortGroups_scrub IssueRec.date scrubI hdate g', hg']
  · rw [he]

/-- `process_prs` on url-masked-equal datasets: identical outcomes up to
masking the urls of the grouped records. -/
theorem process_prs_scrub_congr (d d' : Json)
    (h : stripUrlData d = stripUrlData d') :
    Except.map (scrubG scrubP) (process_prs d) =
    Except.map (scrubG scrubP) (process_prs d') := by
  rcases stripUrlData_shape d d' h with ⟨l, l', hd, hd', hmap⟩ | he
  · subst hd
    subst hd'
    have hf := map_eq_forall2 stripUrl l l' hmap
    have hf2 : List.Forall₂ (fun a b =>
        Except.map (fun p : Json × PrRec => (p.1, scrubP p.2)) (extractPr a) =
        Except.map (fun p : Json × PrRec => (p.1, scrubP p.2)) (extractPr b)) l l' :=
      hf.imp (fun a b hab => extractPr_congr a b hab)
    have hg := groupFold_scrub extractPr scrubP hf2 [] [] rfl
    unfold process_prs processWith
    have h1 : pyIter (Json.arr l) = .ok l := rfl
    have h1' : pyIter (Json.arr l') = .ok l' := rfl
    simp only [h1, h1']
    cases ha : groupFold extractPr [] l with
    | error e =>
      cases hb : groupFold extractPr [] l' with
      | error e' =>
        rw [ha, hb] at hg
        have hg' : (Except.error e : Py (Grouped PrRec)) = .error e' := hg
        rw [Except.error.inj hg']
      | ok g' =>
        rw [ha, hb] at hg
        exact (nomatch hg)
    | ok g =>
      cases hb : groupFold extractPr [] l' with
      | error e' =>
        rw [ha, hb] at hg
        exact (nomatch hg)
      | ok g' =>
        rw [ha, hb] at hg
        have hg' : scrubG scrubP g = scrubG scrubP g' :=
          Except.ok.inj (show (Except.ok (scrubG scrubP g) : Py (Grouped PrRec)) =
            .ok (scrubG scrubP g') from hg)
        have hdate : ∀ r : PrRec, PrRec.date (scrubP r) = PrRec.date r :=
          fun r => rfl
        rw [← sortGroups_scrub PrRec.date scrubP hdate g,
            ← sortGroups_scrub PrRec.date scrubP hdate g', hg']
  · rw [he]

/-- `process_commits` is unchanged outright by url masking. -/
theorem process_commits_congr (d d' : Json)
    (h : stripUrlData d = stripUrlData d') :
    process_commits d = process_commits d' := by
  rcases stripUrlData_shape d d' h with ⟨l, l', hd, hd', hmap⟩ | he
  · subst hd
    subst hd'
    have hf := map_eq_forall2 stripUrl l l' hmap
    unfold process_commits processWith
    have h1 : pyIter (Json.arr l) = .ok l := rfl
    have h1' : pyIter (Json.arr l') = .ok l' := rfl
    simp only [h1, h1']
    rw [groupFold_commit_congr hf []]
  · rw [he]

/-- `grouped[repo]` commutes with masking. -/
theorem assocGet_scrub (f : ρ → ρ) :
    ∀ (g : Grouped ρ) (k : PyKey),
      assocGet (scrubG f g) k = (assocGet g k).map f
  | [], _ => rfl
  | (k', rs) :: t, k => by
    by_cases he : pyKeyEq k' k = true
    · simp [assocGet, scrubG, he]
    · have ih := assocGet_scrub f t k
      simp only [scrubG] at ih
      simp [assocGet, scrubG, he, ih]

/-- Item rendering ignores masking when each record's lines do. -/
theorem renderItems_scrub (f : ρ → Py (List Str)) (h : ρ → ρ)
    (hf : ∀ r, f (h r) = f r) :
    ∀ l : List ρ, renderItems f (l.map h) = renderItems f l
  | [] => rfl
  | r :: rs => by
    show (match f (h r) with
          | .error e => .error e
          | .ok ls =>
            match renderItems f (rs.map h) with
            | .error e => .error e
            | .ok rest => .ok (ls ++ rest)) =
      (match f r with
       | .error e => (.error e : Py (List Str))
       | .ok ls =>
         match renderItems f rs with
         | .error e => .error e
         | .ok rest => .ok (ls ++ rest))
    rw [hf, renderItems_scrub f h hf rs]

/-- The sorted key list ignores masking. -/
theorem sortedKeys_scrub (h : ρ → ρ) (g : Grouped ρ) :
    sortedKeys (scrubG h g) = sortedKeys g := by
  unfold sortedKeys
  have hk : (scrubG h g).map Prod.fst = g.map Prod.fst := by
    simp [scrubG, List.map_map]
  rw [hk]

/-- Repository blocks ignore masking when each record's lines do. -/
theorem renderRepos_scrub (g : Grouped ρ) (f : ρ → Py (List Str)) (h : ρ → ρ)
    (hf : ∀ r, f (h r) = f r) :
    ∀ ks : List PyKey, renderRepos (scrubG h g) f ks = renderRepos g f ks
  | [] => rfl
  | k :: ks => by
    show (match renderItems f (assocGet (scrubG h g) k) with
          | .error e => .error e
          | .ok il =>
            match renderRepos (scrubG h g) f ks with
            | .error e => .error e
            | .ok rest => .ok ((chars "### " ++ keyFormat k) :: il ++ [[]] ++ rest)) =
      (match renderItems f (assocGet g k) with
       | .error e => (.error e : Py (List Str))
       | .ok il =>
         match renderRepos g f ks with
         | .error e => .error e
         | .ok rest => .ok ((chars "### " ++ keyFormat k) :: il ++ [[]] ++ rest))
    rw [assocGet_scrub, renderItems_scrub f h hf, renderRepos_scrub g f h hf ks]

/-- A document section ignores masking when each record's lines do. -/
theorem renderSection_scrub (hd : Str) (g : Grouped ρ)
    (f : ρ → Py (List Str)) (h : ρ → ρ) (hf : ∀ r, f (h r) = f r) :
    renderSection hd (scrubG h g) f = renderSection hd g f := by
  unfold renderSection
  have he : (scrubG h g).isEmpty = g.isEmpty := by
    cases g <;> rfl
  rw [he, sortedKeys_scrub]
  simp only [renderRepos_scrub g f h hf]

/-- The record count ignores masking. -/
theorem countRecs_scrub (h : ρ → ρ) (g : Grouped ρ) :
    countRecs (scrubG h g) = countRecs g := by
  unfold countRecs
  simp only [scrubG, List.map_map]
  have hc : ((fun kv : PyKey × List ρ => kv.2.length) ∘
      fun kv : PyKey × List ρ => (kv.1, kv.2.map h)) =
      (fun kv : PyKey × List ρ => kv.2.length) := by
    funext kv
    simp
  rw [hc]

/-- The date pool of the issue categories ignores masking. -/
theorem datesI_scrub (g : Grouped IssueRec) :
    datesI (scrubG scrubI g) = datesI g := by
  unfold datesI
  simp only [scrubG, List.flatMap_map]
  have : (fun kv : PyKey × List IssueRec =>
      ((kv.1, kv.2.map scrubI) : PyKey × List IssueRec).2.filterMap IssueRec.date) =
      (fun kv : PyKey × List IssueRec => kv.2.filterMap IssueRec.date) := by
    funext kv
    rw [show ((kv.1, kv.2.map scrubI) : PyKey × List IssueRec).2 =
        kv.2.map scrubI from rfl, List.filterMap_map]
    rfl
  rw [this]

/-- The rendered document ignores record-url masking: the renderer never
reads the `url` field of an issue or PR record. -/
theorem gm_scrub (gc : Grouped CommitRec) (gi gicc : Grouped IssueRec)
    (gpc gpr : Grouped PrRec) (dir : Str) (ib : Bool) :
    generate_markdown gc (scrubG scrubI gi) (scrubG scrubI gicc)
      (scrubG scrubP gpc) (scrubG scrubP gpr) dir ib =
    generate_markdown gc gi gicc gpc gpr dir ib := by
  simp only [generate_markdown]
  rw [datesI_scrub, countRecs_scrub scrubI gi, countRecs_scrub scrubI gicc,
      countRecs_scrub scrubP gpc, countRecs_scrub scrubP gpr,
      renderSection_scrub
        (chars "## Issues Created (" ++ natStr (countRecs gi) ++ chars ")")
        gi (issueCreatedLines ib) scrubI (fun r => rfl),
      renderSection_scrub
        (chars "## Issues Commented (" ++ natStr (countRecs gicc) ++ chars ")")
        gicc issueCommentedLines scrubI (fun r => rfl),
      renderSection_scrub
        (chars "## PRs Created (" ++ natStr (countRecs gpc) ++ chars ")")
        gpc (prCreatedLines ib) scrubP (fun r => rfl),
      renderSection_scrub
        (chars "## PRs Reviewed (" ++ natStr (countRecs gpr) ++ chars ")")
        gpr prReviewedLines scrubP (fun r => rfl)]

/-- A masked-image equality of two fallible results: both fail with the
same error, or both succeed with masked-equal values. -/
theorem pyScrubCases (x y : Py α) (f : α → α)
    (h : Except.map f x = Except.map f y) :
    (∃ e, x = .error e ∧ y = .error e) ∨
    (∃ a b, x = .ok a ∧ y = .ok b ∧ f a = f b) := by
  cases x with
  | error e =>
    cases y with
    | error e' =>
      have h' : (Except.error e : Py α) = .error e' := h
      exact Or.inl ⟨e, rfl, by rw [Except.error.inj h']⟩
    | ok b => exact (nomatch h)
  | ok a =>
    cases y with
    | error e' => exact (nomatch h)
    | ok b =>
      have h' : (Except.ok (f a) : Py α) = .ok (f b) := h
      exact Or.inr ⟨a, b, rfl, rfl, Except.ok.inj h'⟩

/-- **C10.**  The rendered document is independent of every record's
`url` field: for any two input datasets that differ only in the `url`
values of their items (equal after masking every item's top-level `url`
field), the pipeline produces identical output — the same document
lines, or the same error.  The url is extracted into each normalised
issue/PR record but never read by the renderer. -/
theorem claim_C10 (c c' ic ic' icc icc' pc pc' pr pr' : Json)
    (dir : Str) (ib : Bool)
    (h1 : stripUrlData c = stripUrlData c')
    (h2 : stripUrlData ic = stripUrlData ic')
    (h3 : stripUrlData icc = stripUrlData icc')
    (h4 : stripUrlData pc = stripUrlData pc')
    (h5 : stripUrlData pr = stripUrlData pr') :
    transform c ic icc pc pr dir ib = transform c' ic' icc' pc' pr' dir ib := by
  unfold transform
  rw [process_commits_congr c c' h1]
  cases process_commits c' with
  | error e => rfl
  | ok gc =>
    rcases pyScrubCases _ _ _ (process_issues_scrub_congr ic ic' h2) with
      ⟨e, hx1, hy1⟩ | ⟨gi, gi', hx1, hy1, hfi⟩
    · rw [hx1, hy1]
    · rw [hx1, hy1]
      rcases pyScrubCases _ _ _ (process_issues_scrub_congr icc icc' h3) with
        ⟨e, hx2, hy2⟩ | ⟨gicc, gicc', hx2, hy2, hficc⟩
      · rw [hx2, hy2]
      · rw [hx2, hy2]
        rcases pyScrubCases _ _ _ (process_prs_scrub_congr pc pc' h4) with
          ⟨e, hx3, hy3⟩ | ⟨gpc, gpc', hx3, hy3, hfpc⟩
        · rw [hx3, hy3]
        · rw [hx3, hy3]
          rcases pyScrubCases _ _ _ (process_prs_scrub_congr pr pr' h5) with
            ⟨e, hx4, hy4⟩ | ⟨gpr, gpr', hx4, hy4, hfpr⟩
          · rw [hx4, hy4]
          · rw [hx4, hy4]
            show generate_markdown gc gi gicc gpc gpr dir ib =
              generate_markdown gc gi' gicc' gpc' gpr' dir ib
            rw [← gm_scrub gc gi gicc gpc gpr dir ib,
                ← gm_scrub gc gi' gicc' gpc' gpr' dir ib,
                hfi, hficc, hfpc, hfpr]

/-- Witness for C10: two PR datasets differing only in a record's url
produce the same document. -/
theorem claim_C10_witness :
    stripUrlData (.arr [itemDatedPrU "http://a"]) =
      stripUrlData (.arr [itemDatedPrU "http://b"]) ∧
    transform (.arr []) (.arr []) (.arr [])
        (.arr [itemDatedPrU "http://a"]) (.arr []) (chars "d") true =
      transform (.arr []) (.arr []) (.arr [])
        (.arr [itemDatedPrU "http://b"]) (.arr []) (chars "d") true :=
  ⟨rfl, claim_C10 (.arr []) (.arr []) (.arr []) (.arr []) (.arr []) (.arr [])
    (.arr [itemDatedPrU "http://a"]) (.arr [itemDatedPrU "http://b"])
    (.arr []) (.arr []) (chars "d") true rfl rfl rfl rfl rfl⟩
